import Mathlib

/-!
Shallow embedding of the distributed-circuit scheduler in
`src/qibo/tensorflow/distcircuit.py` (classes `DeviceQueues` and
`TensorflowDistributedCircuit`), together with theorems settling the
frozen claims about it.

Modelling conventions:
* Machine integers are `Nat`/`Int`; the gate counters are `Int` (numpy
  `int32` values stay tiny here, overflow is irrelevant).
* Python sets of small qubit ids are modelled as sorted duplicate-free
  lists; `set.pop()` pops the least element and set iteration is in
  ascending order (CPython behaviour for small non-negative ints).
* `np.argsort` is external library code; it is modelled as the stable
  sort used by the specification (sorting qubit ids by counter value,
  ties by ascending id), i.e. sorting by the lexicographic order on
  `(counter[q], q)`.
* Gate objects are mutable Python objects shared between the circuit's
  gate queue and the transformer; the gate queue is therefore embedded
  as an explicit store `List Gate` and `_transform` threads the store,
  referring to the caller's gates by their index in it.
* Out-of-range numpy index writes (`counter[q] -= 1` with `q` out of
  range) are modelled as no-ops; every call site keeps indices in range.
* Fallible operations return `Option`/`Except`.
-/

/-- A gate object: the attributes of `qibo.base.gates.Gate` that
`distcircuit.py` reads or writes.  `tag` stands for the identity and
opaque parameters of the gate (matrix, name, ...), which the scheduler
never inspects.  `swapReset` is the `swap_reset` attribute written by
`DeviceQueues._transform` on special gates. -/
structure Gate where
  targets : List Nat
  controls : List Nat
  is_swap : Bool
  is_special_gate : Bool
  isM : Bool
  isVariationalLayer : Bool
  tag : Nat
  swapReset : List (Nat × Nat)
deriving DecidableEq

/-- The fresh `gate_module.SWAP(a, b)` object created by the transformer. -/
def mkSwap (a b : Nat) : Gate :=
  { targets := [a, b], controls := [], is_swap := true,
    is_special_gate := false, isM := false, isVariationalLayer := false,
    tag := 0, swapReset := [] }

/-- Model of a CPython set of small qubit ids: sorted, duplicate free.
Set iteration / `pop` order is ascending for small non-negative ints. -/
def pyset (xs : List Nat) : List Nat :=
  List.insertionSort (· ≤ ·) xs.dedup

/-- Intersection of a (sorted) set with another set, preserving order:
models `s & t` for CPython small-int sets. -/
def pyinter (xs ys : List Nat) : List Nat :=
  xs.filter (fun q => q ∈ ys)

/-- The partition / bookkeeping state of a `DeviceQueues` object:
every attribute of `DeviceQueues.__init__` except the per-device queues
(`queues`/`special_queue`, threaded separately by `create`) and the
device-name tables. -/
structure DQState where
  nqubits : Nat
  ndevices : Nat
  nglobal : Nat
  nlocal : Nat
  global_qubits_set : List Nat
  global_qubits_list : List Nat
  local_qubits : List Nat
  global_qubits_reduced : List (Nat × Nat)
  local_qubits_reduced : List (Nat × Nat)
  swaps_list : List (Nat × Nat)
deriving DecidableEq

/-- Loop body of `DeviceQueues.reduction_number`: walk the sorted global
list; return the index of the first entry greater than `q`, or one past
the last index when the loop exhausts the list. -/
def rnGo (i : Nat) (gl : List Nat) (q : Nat) : Nat :=
  match gl with
  | [] => i
  | g :: rest => if g > q then i else rnGo (i + 1) rest q

/-- Embeds `DeviceQueues.reduction_number`.  On an empty global list the Python
loop variable `i` is unbound and the method raises `NameError`; this is
the `none` case. -/
def reduction_number (gl : List Nat) (q : Nat) : Option Nat :=
  match gl with
  | [] => none
  | _ => some (rnGo 0 gl q)

/-- Embeds `DeviceQueues.__init__` for a circuit with the given sizes (the
`nqubits`/`ndevices`/`nglobal`/`nlocal` attributes are copied from the
circuit).  `reduction_number` is total here via `rnGo`; the constructor
only runs with a non-empty global set (`nglobal > 0` is enforced by
`TensorflowDistributedCircuit.__init__`), where the two agree. -/
def dqInit (nqubits ndevices nglobal nlocal : Nat) (global_qubits : List Nat) : DQState :=
  let gset := pyset global_qubits
  let glist := gset
  let lqs := (List.range nqubits).filter (fun q => q ∉ gset)
  { nqubits := nqubits, ndevices := ndevices, nglobal := nglobal, nlocal := nlocal,
    global_qubits_set := gset,
    global_qubits_list := glist,
    local_qubits := lqs,
    global_qubits_reduced := glist.map (fun q => (q, glist.indexOf q)),
    local_qubits_reduced := lqs.map (fun q => (q, q - rnGo 0 glist q)),
    swaps_list := [] }

/-- First-match lookup in an association list (models Python dict access,
`none` being a `KeyError`). -/
def alookup (m : List (Nat × Nat)) (k : Nat) : Option Nat :=
  match m with
  | [] => none
  | (a, b) :: rest => if a = k then some b else alookup rest k

/-- Embeds `TensorflowDistributedCircuit._swap`: reads the reduced indices of
the swapped pair, then for every `g < ndevices / 2` pairs the pieces
`i` and `i + t` (where `i = ((g >> m) << (m+1)) + (g & (t-1))`) and
calls the external `op.swap_pieces` kernel on them with the reduced
local index.  The emitted list records those kernel calls
`(i, i + t, local_eff)`.  The method reads but never writes the
`DeviceQueues` bookkeeping, so the returned state is the input state. -/
def swap_engine (dq : DQState) (global_qubit local_qubit : Nat) :
    Option (DQState × List (Nat × Nat × Nat)) :=
  match alookup dq.global_qubits_reduced global_qubit,
        alookup dq.local_qubits_reduced local_qubit with
  | some m0, some leff =>
    let m := dq.nglobal - m0 - 1
    let t := 2 ^ m
    some (dq, (List.range (dq.ndevices / 2)).map (fun g =>
      ((g / 2 ^ m) * 2 ^ (m + 1) + g % t, (g / 2 ^ m) * 2 ^ (m + 1) + g % t + t, leff)))
  | _, _ => none

/-- Error kinds of the embedded methods (ValueError / AssertionError /
StopIteration / IndexError distinctions follow §7 of the spec). -/
inductive SchedErr where
  | insufficientQubits
  | onlySwapGlobal
  | globalGlobalSwap
  | assertionFailed
  | stopIteration
  | indexError
  | outOfFuel
deriving DecidableEq

/-- Embeds `TensorflowDistributedCircuit._add`: `VariationalLayer` gates are
prepared and added without any check; any other gate raises the
insufficient-qubits `ValueError` when `nqubits - len(targets) < nglobal`
unless it is a measurement (`gates.M`) gate. -/
def circuit_add (nqubits nglobal : Nat) (g : Gate) : Except SchedErr Unit :=
  if g.isVariationalLayer then Except.ok ()
  else if (nqubits : Int) - g.targets.length < (nglobal : Int) ∧ g.isM = false then
    Except.error SchedErr.insufficientQubits
  else Except.ok ()

/-- Embeds `DeviceQueues.count`: number of gates targeting each qubit.
A target outside `[0, nqubits)` would raise `IndexError` in numpy; the
model treats the write as a no-op (callers keep targets in range). -/
def gate_count (queue : List Gate) (nqubits : Nat) : List Int :=
  queue.foldl
    (fun c g => g.targets.foldl (fun c q => c.set q (c.getD q 0 + 1)) c)
    (List.replicate nqubits 0)

/-- The comparison `np.argsort` sorts qubit ids by: counter value first,
index as tie-break (the stable order). -/
def argLe (c : List Int) (a b : Nat) : Prop :=
  c.getD a 0 < c.getD b 0 ∨ (c.getD a 0 = c.getD b 0 ∧ a ≤ b)

instance argLeDecidable (c : List Int) : DecidableRel (argLe c) := by
  intro a b
  unfold argLe
  infer_instance

/-- Embeds `np.argsort(counter)` (external numpy primitive), modelled as the
stable sort of the index range by counter value — ties broken by
ascending index. -/
def argsort (c : List Int) : List Nat :=
  List.insertionSort (argLe c) (List.range c.length)

instance : Inhabited Gate :=
  ⟨{ targets := [], controls := [], is_swap := false, is_special_gate := false,
     isM := false, isVariationalLayer := false, tag := 0, swapReset := [] }⟩

/-- Embeds `set(gate.target_qubits) & self.global_qubits_set` as computed by
`_transform` and `create`. -/
def globalTargets (gset : List Nat) (g : Gate) : List Nat :=
  pyinter (pyset g.targets) gset

/-- The target-based part of the acceptance test of `_transform`:
a SWAP with exactly one global target, or any gate with no global
target, may be accepted in the current pass. -/
def accept0 (gset : List Nat) (g : Gate) : Bool :=
  (g.is_swap && (globalTargets gset g).length == 1) || (globalTargets gset g).isEmpty

/-- Embeds `counter[q] -= 1` for each target of an accepted gate. -/
def decTargets (counter : List Int) (targets : List Nat) : List Int :=
  targets.foldl (fun c q => c.set q (c.getD q 0 - 1)) counter

/-- Embeds `counter[q], counter[qs] = counter[qs], counter[q]` (both reads from
the pre-assignment array, as in Python tuple assignment). -/
def swapCounter (c : List Int) (p : Nat × Nat) : List Int :=
  (c.set p.1 (c.getD p.2 0)).set p.2 (c.getD p.1 0)

/-- The `qubit_map` built during a reconfiguration: for each
`(q, qs)` partner pair, `qubit_map[q] = qs` and `qubit_map[qs] = q`. -/
def buildQmap (pairs : List (Nat × Nat)) : List (Nat × Nat) :=
  pairs.foldl (fun m p => m ++ [(p.1, p.2), (p.2, p.1)]) []

/-- Embeds `qubit_map[q] if q in qubit_map else q`. -/
def remapQ (qmap : List (Nat × Nat)) (q : Nat) : Nat :=
  (alookup qmap q).getD q

/-- Embeds `gate.set_targets_and_controls(new_targets, new_controls)` with ids
remapped through `qubit_map`: rewrites the target and control tuples of
the gate object and nothing else. -/
def remapGate (qmap : List (Nat × Nat)) (g : Gate) : Gate :=
  { g with targets := g.targets.map (remapQ qmap),
           controls := g.controls.map (remapQ qmap) }

/-- A reference held in the accepted queue of `_transform`: either an
index into the circuit's gate store (the caller's gate object) or a
fresh SWAP gate created by the transformer. -/
def resolveRef (cq : List Gate) : Sum Nat Gate → Gate
  | Sum.inl i => cq.getD i default
  | Sum.inr g => g

/-- The update `_transform` applies to a gate when it examines it:
special gates get their `swap_reset` attribute overwritten with a
snapshot of the current `swaps_list`. -/
def passGate (dq : DQState) (cq : List Gate) (i : Nat) : Gate :=
  if (cq.getD i default).is_special_gate
  then { cq.getD i default with swapReset := dq.swaps_list }
  else cq.getD i default

/-- The store after `_transform` examined gate `i` (the `swap_reset`
write for special gates is the only in-place mutation here). -/
def passStore (dq : DQState) (cq : List Gate) (i : Nat) : List Gate :=
  if (cq.getD i default).is_special_gate then cq.set i (passGate dq cq i) else cq

/-- The left-to-right pass of `_transform` over `remaining_queue`
(given by store indices).  Special gates get their `swap_reset`
attribute overwritten in the store; a gate is accepted when the target
test `accept0` passes and it commutes with every gate deferred so far,
otherwise it is deferred.  Returns the updated store, the accepted
queue, the deferred indices and the updated counter. -/
def transformPass (comm : Gate → Gate → Bool) (dq : DQState) :
    List Nat → List Gate → List (Sum Nat Gate) → List Nat → List Int →
    List Gate × List (Sum Nat Gate) × List Nat × List Int
  | [], cq, acc, defr, counter => (cq, acc, defr, counter)
  | i :: rest, cq, acc, defr, counter =>
    if accept0 dq.global_qubits_set (passGate dq cq i) &&
        defr.all (fun j => comm ((passStore dq cq i).getD j default) (passGate dq cq i)) then
      transformPass comm dq rest (passStore dq cq i) (acc ++ [Sum.inl i]) defr
        (decTargets counter (passGate dq cq i).targets)
    else
      transformPass comm dq rest (passStore dq cq i) acc (defr ++ [i]) counter

/-- Embeds `set(gate.target_qubits)` for the head deferred gate. -/
def reconfTset0 (cq : List Gate) (hd : Nat) : List Nat :=
  pyset (cq.getD hd default).targets

/-- Embeds `global_targets = target_set & global_qubits_set` for the head
deferred gate. -/
def reconfGt0 (dq : DQState) (cq : List Gate) (hd : Nat) : List Nat :=
  pyinter (reconfTset0 cq hd) dq.global_qubits_set

/-- Embeds `target_set` after the SWAP special case popped its least element. -/
def reconfTset (dq : DQState) (cq : List Gate) (hd : Nat) : List Nat :=
  if (cq.getD hd default).is_swap then (reconfTset0 cq hd).drop 1 else reconfTset0 cq hd

/-- Embeds `global_targets` after the SWAP special case removed the popped
element. -/
def reconfGt (dq : DQState) (cq : List Gate) (hd : Nat) : List Nat :=
  if (cq.getD hd default).is_swap
  then (reconfGt0 dq cq hd).erase ((reconfTset0 cq hd).headD 0)
  else reconfGt0 dq cq hd

/-- Embeds `available_swaps`: qubits in `counter.argsort()` order that are
neither global nor targets of the head gate. -/
def reconfAvail (dq : DQState) (cq : List Gate) (hd : Nat) (counter : List Int) : List Nat :=
  (argsort counter).filter
    (fun q => q ∉ dq.global_qubits_set ∧ q ∉ reconfTset dq cq hd)

/-- The `(q, qs)` partner pairs chosen by the reconfiguration: the
remaining global targets in ascending (set-iteration) order, zipped
with the successive `next(available_swaps)` picks. -/
def reconfPairs (dq : DQState) (cq : List Gate) (hd : Nat) (counter : List Int) :
    List (Nat × Nat) :=
  (reconfGt dq cq hd).zip
    ((reconfAvail dq cq hd counter).take (reconfGt dq cq hd).length)

/-- The reconfiguration step of `_transform`, run when the pass left a
non-empty deferred queue: look at the head deferred gate; if it is a
SWAP, assert that both targets are global and exempt the popped one;
pick a swap partner from `counter.argsort()` (skipping globals and the
head's remaining targets) for every remaining global target, emitting a
fresh `SWAP(q, qs)` per pair, recording the normalized pair in
`swaps_list` and swapping the counters; finally remap targets and
controls of every deferred gate in the store through the qubit map.
`stopIteration` models running out of partners, `assertionFailed` the
failed `assert`. -/
def reconfigure (dq : DQState) (cq : List Gate) (rem : List Nat) (counter : List Int) :
    Except SchedErr (DQState × List Gate × List Gate × List Int) :=
  if rem.isEmpty then Except.error SchedErr.indexError
  else if (cq.getD (rem.headD 0) default).is_swap = true ∧
      (reconfGt0 dq cq (rem.headD 0)).length ≠ 2 then
    Except.error SchedErr.assertionFailed
  else if (reconfGt dq cq (rem.headD 0)).length
      ≤ (reconfAvail dq cq (rem.headD 0) counter).length then
    Except.ok
      ({ dq with swaps_list := dq.swaps_list ++
           (reconfPairs dq cq (rem.headD 0) counter).map (fun p => (min p.1 p.2, max p.1 p.2)) },
       rem.foldl
         (fun c i =>
           c.set i (remapGate (buildQmap (reconfPairs dq cq (rem.headD 0) counter))
             (c.getD i default)))
         cq,
       (reconfPairs dq cq (rem.headD 0) counter).map (fun p => mkSwap p.1 p.2),
       (reconfPairs dq cq (rem.headD 0) counter).foldl swapCounter counter)
  else Except.error SchedErr.stopIteration

/-- The recursion of `_transform`, with explicit fuel (one unit per
pass); `none` means the fuel ran out, which `transform_terminates`
shows never happens from the `queue_transform` entry point. -/
def transformAux (comm : Gate → Gate → Bool) :
    Nat → DQState → List Gate → List (Sum Nat Gate) → List Nat → List Int →
    Option (Except SchedErr (DQState × List Gate × List (Sum Nat Gate)))
  | 0, _, _, _, _, _ => none
  | fuel + 1, dq, cq, acc, rem, counter =>
    match transformPass comm dq rem cq acc [] counter with
    | (cq1, acc1, defr, counter1) =>
      if defr.isEmpty then some (Except.ok (dq, cq1, acc1))
      else
        match reconfigure dq cq1 defr counter1 with
        | Except.error e => some (Except.error e)
        | Except.ok (dq2, cq2, swapGates, counter2) =>
          transformAux comm fuel dq2 cq2 (acc1 ++ swapGates.map Sum.inr) defr counter2

/-- Embeds `DeviceQueues.transform`: run `_transform` on the whole circuit
queue (the store), then extend the result with SWAPs undoing every
recorded swap pair in LIFO order.  Returns the final `DeviceQueues`
bookkeeping, the mutated gate store (the caller's queue objects) and
the returned `new_queue` as gate values. -/
def queue_transform (comm : Gate → Gate → Bool) (dq : DQState) (cq : List Gate)
    (counter : List Int) : Except SchedErr (DQState × List Gate × List Gate) :=
  match transformAux comm (cq.length + 1) dq cq [] (List.range cq.length) counter with
  | none => Except.error SchedErr.outOfFuel
  | some (Except.error e) => Except.error e
  | some (Except.ok (dq2, cq2, acc)) =>
    Except.ok (dq2, cq2,
      acc.map (resolveRef cq2) ++ dq2.swaps_list.reverse.map (fun p => mkSwap p.1 p.2))

/-- Embeds `q - self.reduction_number(q)` as used by `_create_reduced_gate`
(total via `rnGo`; the global list is non-empty in every constructed
`DeviceQueues`, where this agrees with `reduction_number`). -/
def reduceQ (gl : List Nat) (q : Nat) : Nat := q - rnGo 0 gl q

/-- Embeds `DeviceQueues._create_reduced_gate`: `copy.copy(gate)` with targets
reduced to the local address space and global controls stripped (the
`original_gate` backlink carries no scheduling information and is not
modelled). -/
def create_reduced_gate (dq : DQState) (g : Gate) : Gate :=
  { g with
    targets := g.targets.map (reduceQ dq.global_qubits_list),
    controls := (g.controls.filter (fun q => q ∉ dq.global_qubits_set)).map
                  (reduceQ dq.global_qubits_list) }

/-- Embeds `set(gate.control_qubits) & self.global_qubits_set` in `create`. -/
def globalControls (dq : DQState) (g : Gate) : List Nat :=
  pyinter (pyset g.controls) dq.global_qubits_set

/-- The per-piece activation loop of `create`: for each global control
`c`, with `ic = nglobal - global_qubits_list.index(c) - 1`, piece `i`
keeps the gate only while bit `ic` of `i` is 1 (`(i // 2**ic) % 2`);
the loop breaks on the first 0 bit. -/
def control_flag (dq : DQState) (i : Nat) : List Nat → Bool
  | [] => true
  | c :: rest =>
    if (i / 2 ^ (dq.nglobal - dq.global_qubits_list.indexOf c - 1)) % 2 = 1 then
      control_flag dq i rest
    else false

/-- The per-device placement loop of `create` for one normal gate:
`ids` is the concatenation of the `device_to_ids` piece-index lists (in
device order); each listed piece whose activation flag is set gets the
reduced gate appended to its queue.  (The per-device copies of the
reduced gate are value-equal; the device binding of `calc_gate.nqubits`
is an external tf concern.) -/
def wave_append (dq : DQState) (g : Gate) (ids : List Nat) (wave : List (List Gate)) :
    List (List Gate) :=
  ids.foldl
    (fun w i =>
      if control_flag dq i (globalControls dq g) then
        w.set i ((w.getD i []) ++ [create_reduced_gate dq g])
      else w)
    wave

/-- An entry of `special_queue`: a special gate object or a
`(global, local)` swap pair. -/
inductive SItem where
  | special_gate : Gate → SItem
  | swap_pair : Nat → Nat → SItem
deriving DecidableEq

/-- The `queues` / `special_queue` pair built by `DeviceQueues.create`
(`[]` entries of `queues` are the special-wave markers). -/
structure CreateState where
  queues : List (List (List Gate))
  special_queue : List SItem
deriving DecidableEq

/-- The non-special branch of the `create` loop body: lazily open a
fresh wave (one empty gate list per device) when there is none or the
last entry is a special marker, then distribute the gate over the last
wave with `wave_append`. -/
def extend_wave (dq : DQState) (ids : List Nat) (qs0 : List (List (List Gate)))
    (g : Gate) : List (List (List Gate)) :=
  let qs := if qs0.isEmpty || (qs0.getLastD []).isEmpty
            then qs0 ++ [List.replicate dq.ndevices []]
            else qs0
  qs.dropLast ++ [wave_append dq g ids (qs.getLastD [])]

/-- One iteration of the `create` loop over the (transformed) queue:
a gate with no targets is a special gate (marker `[]` plus an entry in
`special_queue`); a gate with a global target must be a SWAP with
exactly one global target and becomes a swap-pair special wave;
any other gate extends the current wave via `extend_wave`. -/
def create_step (dq : DQState) (ids : List Nat) (st : CreateState) (g : Gate) :
    Except SchedErr CreateState :=
  if g.targets.isEmpty then
    Except.ok { queues := st.queues ++ [[]],
                special_queue := st.special_queue ++ [SItem.special_gate g] }
  else if (globalTargets dq.global_qubits_set g).isEmpty then
    Except.ok { st with queues := extend_wave dq ids st.queues g }
  else if ¬ g.is_swap then Except.error SchedErr.onlySwapGlobal
  else if 1 < (globalTargets dq.global_qubits_set g).length then
    Except.error SchedErr.globalGlobalSwap
  else
    match g.targets with
    | [] => Except.error SchedErr.indexError
    | t0 :: rest =>
      if t0 = (globalTargets dq.global_qubits_set g).headD 0 then
        match rest with
        | [] => Except.error SchedErr.indexError
        | t1 :: _ =>
          Except.ok { queues := st.queues ++ [[]],
                      special_queue := st.special_queue ++
                        [SItem.swap_pair ((globalTargets dq.global_qubits_set g).headD 0) t1] }
      else
        Except.ok { queues := st.queues ++ [[]],
                    special_queue := st.special_queue ++
                      [SItem.swap_pair ((globalTargets dq.global_qubits_set g).headD 0) t0] }

/-- Embeds `DeviceQueues.create`. -/
def dqCreate (dq : DQState) (ids : List Nat) (queue : List Gate) :
    Except SchedErr CreateState :=
  queue.foldlM (create_step dq ids) { queues := [], special_queue := [] }

/-- The main loop of `_execute` restricted to its special-gate
bookkeeping: walk the wave list; every `[]` entry calls
`next(special_gates)` (`none` models the `StopIteration` this raises on
an exhausted iterator).  Returns the unconsumed tail of
`special_queue`. -/
def consume_specials : List (List (List Gate)) → List SItem → Option (List SItem)
  | [], sp => some sp
  | e :: rest, sp =>
    if e.isEmpty then
      match sp with
      | [] => none
      | _ :: tl => consume_specials rest tl
    else consume_specials rest sp

/-- The post-loop drain `for gate in special_gates:
_special_gate_execute(next(special_gates))` applied to the unconsumed
tail: the `for` consumes one item, the explicit `next` consumes and
executes the following one (raising `StopIteration`, the `true` flag,
when the tail has odd length).  Returns the executed items. -/
def drain_trailing : List SItem → List SItem × Bool
  | [] => ([], false)
  | [_] => ([], true)
  | _ :: b :: rest => (b :: (drain_trailing rest).1, (drain_trailing rest).2)

/-! ### List toolkit shared by the proofs -/

instance exceptDecidableEq {ε α : Type} [DecidableEq ε] [DecidableEq α] :
    DecidableEq (Except ε α) := fun a b =>
  match a, b with
  | Except.ok x, Except.ok y =>
    if h : x = y then Decidable.isTrue (by rw [h])
    else Decidable.isFalse (fun hc => h (by injection hc))
  | Except.ok _, Except.error _ => Decidable.isFalse (fun hc => Except.noConfusion hc)
  | Except.error _, Except.ok _ => Decidable.isFalse (fun hc => Except.noConfusion hc)
  | Except.error x, Except.error y =>
    if h : x = y then Decidable.isTrue (by rw [h])
    else Decidable.isFalse (fun hc => h (by injection hc))

theorem getD_set_self {α : Type} (l : List α) (i : Nat) (x d : α) (h : i < l.length) :
    (l.set i x).getD i d = x := by
  simp [List.getD_eq_getElem?_getD, List.getElem?_set_self, h]

theorem getD_set_ne {α : Type} (l : List α) (i j : Nat) (x d : α) (h : i ≠ j) :
    (l.set j x).getD i d = l.getD i d := by
  simp [List.getD_eq_getElem?_getD, List.getElem?_set_ne (Ne.symm h)]

theorem filter_eq_singleton_of (l : List Nat) (p : Nat → Bool) (x : Nat)
    (hn : l.Nodup) (hx : x ∈ l) (hpx : p x = true)
    (huniq : ∀ y ∈ l, p y = true → y = x) : l.filter p = [x] := by
  induction l with
  | nil => cases hx
  | cons a t ih =>
    rcases List.nodup_cons.mp hn with ⟨hat, hnt⟩
    by_cases hpa : p a = true
    · have hax : a = x := huniq a (List.mem_cons_self a t) hpa
      have ht : t.filter p = [] := by
        apply List.filter_eq_nil_iff.mpr
        intro y hy hpy
        have hyx : y = x := huniq y (List.mem_cons_of_mem a hy) (by simpa using hpy)
        exact hat (by rw [hax, ← hyx]; exact hy)
      simp [List.filter_cons, hpa, hpx, ht, hax]
    · have hax : a ≠ x := fun h => hpa (h ▸ hpx)
      have hxt : x ∈ t := by
        rcases List.mem_cons.mp hx with h | h
        · exact absurd h.symm hax
        · exact h
      have := ih hnt hxt (fun y hy hpy => huniq y (List.mem_cons_of_mem a hy) hpy)
      simp [List.filter_cons, hpa, this]

/-! ### C3: `reduction_number` -/

theorem rnGo_eq (q : Nat) :
    ∀ (gl : List Nat) (i : Nat), List.Sorted (· ≤ ·) gl →
      rnGo i gl q = i + gl.countP (fun g => decide (g ≤ q)) := by
  intro gl
  induction gl with
  | nil => intro i _; simp [rnGo]
  | cons g rest ih =>
    intro i hs
    rcases List.sorted_cons.mp hs with ⟨hg, hrest⟩
    by_cases hgq : g > q
    · have h0 : rest.countP (fun g => decide (g ≤ q)) = 0 := by
        apply List.countP_eq_zero.mpr
        intro b hb
        have : q < b := lt_of_lt_of_le hgq (hg b hb)
        simp [Nat.not_le.mpr this]
      simp [rnGo, hgq, h0, Nat.not_le.mpr hgq]
    · have hle : g ≤ q := Nat.le_of_not_lt hgq
      rw [show rnGo i (g :: rest) q = rnGo (i + 1) rest q by simp [rnGo, hgq],
          ih (i + 1) hrest]
      simp [List.countP_cons, hle]
      omega

/-- C3 (corrected claim): for a non-empty sorted global list,
`reduction_number(q)` returns the number of global ids less than **or
equal to** `q`; when `q` is not itself global this is the number of
global ids strictly less than `q`. -/
theorem reduction_number_counts_le (gl : List Nat) (q : Nat)
    (hs : List.Sorted (· ≤ ·) gl) (hne : gl ≠ []) :
    reduction_number gl q = some (gl.countP (fun g => decide (g ≤ q))) ∧
      (q ∉ gl → gl.countP (fun g => decide (g ≤ q)) = gl.countP (fun g => decide (g < q))) := by
  constructor
  · cases gl with
    | nil => exact absurd rfl hne
    | cons a t =>
      show some (rnGo 0 (a :: t) q) = _
      rw [rnGo_eq q (a :: t) 0 hs]
      simp
  · intro hq
    apply List.countP_congr
    intro g hg
    have : g ≠ q := fun h => hq (h ▸ hg)
    simp only [decide_eq_true_eq]
    omega

/-- C3 counterexample: with global list `[1, 3]` and `q = 1` (a global
qubit), `reduction_number` returns 1, not the number 0 of global ids
strictly less than `q`. -/
theorem reduction_number_counterexample :
    reduction_number [1, 3] 1 = some 1 ∧
      List.countP (fun g => decide (g < 1)) [1, 3] = 0 ∧ (1 : Nat) ≠ 0 := by
  decide

/-- Witness for `reduction_number_counts_le` at `gl = [1, 3]`, `q = 2`. -/
theorem reduction_number_counts_le_witness :
    reduction_number [1, 3] 2 = some (List.countP (fun g => decide (g ≤ 2)) [1, 3]) ∧
      ((2 : Nat) ∉ [1, 3] →
        List.countP (fun g => decide (g ≤ 2)) [1, 3] =
          List.countP (fun g => decide (g < 2)) [1, 3]) :=
  reduction_number_counts_le [1, 3] 2 (by decide) (by decide)

/-! ### C4: the global-swap engine leaves the partition unchanged -/

/-- C4 (corrected claim): `_swap` never touches the `DeviceQueues`
bookkeeping; when the reduced-index lookups succeed the partition state
after the piece-pairing loop is exactly the input partition state. -/
theorem swap_engine_frame (dq : DQState) (g l : Nat)
    (h : (swap_engine dq g l).isSome = true) :
    Option.map Prod.fst (swap_engine dq g l) = some dq := by
  unfold swap_engine at h ⊢
  cases hg : alookup dq.global_qubits_reduced g with
  | none =>
    rw [hg] at h
    cases alookup dq.local_qubits_reduced l <;> simp at h
  | some m0 =>
    cases hl : alookup dq.local_qubits_reduced l with
    | none => rw [hg, hl] at h; simp at h
    | some leff => rfl

/-- The `DeviceQueues` partition of a 2-qubit circuit on 2 devices with
global set `{0}`. -/
def dq21 : DQState := dqInit 2 2 1 1 [0]

/-- C4 counterexample: swapping global qubit 0 with local qubit 1 on
`dq21` pairs pieces `(0, 1)` but does **not** exchange the roles of 0
and 1: `global_qubits_list` stays `[0]` instead of becoming `[1]`, and
the reduced maps are not refreshed. -/
theorem swap_engine_counterexample :
    (swap_engine dq21 0 1).isSome = true ∧
      Option.map (fun r => r.1.global_qubits_list) (swap_engine dq21 0 1) ≠ some [1] ∧
      Option.map (fun r => r.1.global_qubits_list) (swap_engine dq21 0 1) = some [0] ∧
      Option.map (fun r => r.1.local_qubits) (swap_engine dq21 0 1) = some [1] := by
  decide

/-- Witness for `swap_engine_frame` at `dq21`, swapping qubits 0 and 1. -/
theorem swap_engine_frame_witness :
    (swap_engine dq21 0 1).isSome = true ∧
      Option.map Prod.fst (swap_engine dq21 0 1) = some dq21 :=
  ⟨by decide, swap_engine_frame dq21 0 1 (by decide)⟩

/-! ### C7: the gate-insertion qubit check -/

/-- C7 (corrected claim): `_add` accepts a gate exactly when it is a
`VariationalLayer`, a measurement gate, or leaves at least `nglobal`
non-target qubits; every rejection is the insufficient-qubits error.
Measurement gates are *not* the sole exemption: `VariationalLayer`
gates bypass the check as well. -/
theorem circuit_add_characterization (nqubits nglobal : Nat) (g : Gate) :
    (circuit_add nqubits nglobal g = Except.ok () ↔
      (g.isVariationalLayer = true ∨ g.isM = true ∨
        (nglobal : Int) ≤ (nqubits : Int) - g.targets.length)) ∧
    (circuit_add nqubits nglobal g ≠ Except.ok () →
      circuit_add nqubits nglobal g = Except.error SchedErr.insufficientQubits) := by
  unfold circuit_add
  split_ifs with h1 h2
  · simp [h1]
  · obtain ⟨hlt, hM⟩ := h2
    constructor
    · constructor
      · intro h; cases h
      · intro h
        rcases h with h | h | h
        · exact absurd h h1
        · rw [hM] at h; exact absurd h (by simp)
        · exfalso; omega
    · intro _; rfl
  · constructor
    · constructor
      · intro _
        rcases Bool.eq_false_or_eq_true g.isM with hM | hM
        · right; left; exact hM
        · right; right
          by_contra hc
          exact h2 ⟨by omega, hM⟩
      · intro _; rfl
    · intro h; exact absurd rfl h

/-- A `VariationalLayer` gate on qubits 0 and 1. -/
def vlGate : Gate :=
  { targets := [0, 1], controls := [], is_swap := false, is_special_gate := false,
    isM := false, isVariationalLayer := true, tag := 1, swapReset := [] }

/-- C7 counterexample: with `N = 2`, `D = 4` (`nglobal = 2`), a
`VariationalLayer` gate targeting both qubits violates
`N - |targets| ≥ nglobal` and is not a measurement gate, yet `_add`
accepts it — measurement gates are not the sole exemption. -/
theorem circuit_add_counterexample :
    circuit_add 2 2 vlGate = Except.ok () ∧ vlGate.isM = false ∧
      ((2 : Int) - vlGate.targets.length < (2 : Int)) := by
  decide

/-- A Hadamard-style single-target gate. -/
def hGate (q : Nat) : Gate :=
  { targets := [q], controls := [], is_swap := false, is_special_gate := false,
    isM := false, isVariationalLayer := false, tag := 2, swapReset := [] }

/-- Witness for `circuit_add_characterization`: `H(0)` with `N = 2`,
`nglobal = 2` is rejected with the insufficient-qubits error. -/
theorem circuit_add_characterization_witness :
    circuit_add 2 2 (hGate 0) = Except.error SchedErr.insufficientQubits :=
  (circuit_add_characterization 2 2 (hGate 0)).2 (by decide)

/-! ### C6: initial global-qubit selection in `set_gates` -/

/-- Embeds `self.global_qubits = counter.argsort()[:self.nglobal]` — the
initial global set chosen by `set_gates` when no partition is preset. -/
def initial_global_qubits (counter : List Int) (nglobal : Nat) : List Nat :=
  (argsort counter).take nglobal

instance argLeTotal (c : List Int) : IsTotal Nat (argLe c) := by
  constructor
  intro a b
  unfold argLe
  rcases lt_trichotomy (c.getD a 0) (c.getD b 0) with h | h | h
  · exact Or.inl (Or.inl h)
  · rcases Nat.le_total a b with hab | hab
    · exact Or.inl (Or.inr ⟨h, hab⟩)
    · exact Or.inr (Or.inr ⟨h.symm, hab⟩)
  · exact Or.inr (Or.inl h)

instance argLeTrans (c : List Int) : IsTrans Nat (argLe c) := by
  constructor
  intro a b d hab hbd
  unfold argLe at *
  rcases hab with h1 | ⟨h1, h1i⟩
  · rcases hbd with h2 | ⟨h2, _⟩
    · exact Or.inl (h1.trans h2)
    · exact Or.inl (h2 ▸ h1)
  · rcases hbd with h2 | ⟨h2, h2i⟩
    · exact Or.inl (h1 ▸ h2)
    · exact Or.inr ⟨h1.trans h2, h1i.trans h2i⟩

theorem argsort_sorted (c : List Int) : List.Sorted (argLe c) (argsort c) :=
  List.sorted_insertionSort (argLe c) (List.range c.length)

theorem argsort_perm (c : List Int) : (argsort c).Perm (List.range c.length) :=
  List.perm_insertionSort (argLe c) (List.range c.length)

theorem mem_argsort (c : List Int) (q : Nat) : q ∈ argsort c ↔ q < c.length := by
  rw [(argsort_perm c).mem_iff, List.mem_range]

/-- C6: the qubits selected as initial globals all have counters less
than or equal to every unselected qubit's counter, and on equal
counters the selected qubit has the smaller id (so the lowest ids win
ties — the stable-sort behaviour, with `np.argsort` modelled as the
stable sort of ids by counter value). -/
theorem initial_global_selection (c : List Int) (k i j : Nat)
    (hi : i ∈ initial_global_qubits c k) (hjn : j < c.length)
    (hj : j ∉ initial_global_qubits c k) :
    c.getD i 0 < c.getD j 0 ∨ (c.getD i 0 = c.getD j 0 ∧ i < j) := by
  have hne : i ≠ j := fun h => hj (h ▸ hi)
  have hjmem : j ∈ argsort c := (mem_argsort c j).mpr hjn
  have hjdrop : j ∈ (argsort c).drop k := by
    rcases (List.mem_append.mp (by rw [List.take_append_drop k (argsort c)]; exact hjmem))
      with h | h
    · exact absurd h hj
    · exact h
  have hrel : argLe c i j :=
    (argsort_sorted c).rel_of_mem_take_of_mem_drop hi hjdrop
  rcases hrel with h | ⟨h, hle⟩
  · exact Or.inl h
  · exact Or.inr ⟨h, lt_of_le_of_ne hle hne⟩

/-- Witness for `initial_global_selection`: counters `[2, 1, 1, 0]`
with `nglobal = 2` select qubits `[3, 1]`; qubit 1 (selected) ties with
qubit 2 (unselected) and wins by lower id. -/
theorem initial_global_selection_witness :
    List.getD [(2 : Int), 1, 1, 0] 1 0 < List.getD [(2 : Int), 1, 1, 0] 2 0 ∨
      (List.getD [(2 : Int), 1, 1, 0] 1 0 = List.getD [(2 : Int), 1, 1, 0] 2 0 ∧ 1 < 2) :=
  initial_global_selection [2, 1, 1, 0] 2 1 2 (by decide) (by decide) (by decide)

/-! ### C5: per-piece activation of controlled gates -/

theorem control_flag_eq_all (dq : DQState) (i : Nat) (cs : List Nat) :
    control_flag dq i cs =
      cs.all (fun c =>
        (i / 2 ^ (dq.nglobal - dq.global_qubits_list.indexOf c - 1)) % 2 == 1) := by
  induction cs with
  | nil => rfl
  | cons c rest ih =>
    by_cases h : (i / 2 ^ (dq.nglobal - dq.global_qubits_list.indexOf c - 1)) % 2 = 1
    · simp [control_flag, h, ih]
    · simp [control_flag, h]

theorem wave_append_cons (dq : DQState) (g : Gate) (a : Nat) (rest : List Nat)
    (wave : List (List Gate)) :
    wave_append dq g (a :: rest) wave =
      wave_append dq g rest
        (if control_flag dq a (globalControls dq g) = true
         then wave.set a ((wave.getD a []) ++ [create_reduced_gate dq g]) else wave) := by
  by_cases h : control_flag dq a (globalControls dq g) = true <;> simp [wave_append, h]

theorem wave_append_length (dq : DQState) (g : Gate) (ids : List Nat) :
    ∀ wave : List (List Gate), (wave_append dq g ids wave).length = wave.length := by
  induction ids with
  | nil => intro wave; rfl
  | cons a rest ih =>
    intro wave
    rw [wave_append_cons, ih]
    split_ifs
    · exact List.length_set wave a _
    · rfl

theorem wave_append_getD (dq : DQState) (g : Gate) :
    ∀ (ids : List Nat) (wave : List (List Gate)) (i : Nat), ids.Nodup → i < wave.length →
      (wave_append dq g ids wave).getD i [] =
        (wave.getD i []) ++
          (if i ∈ ids ∧ control_flag dq i (globalControls dq g) = true
           then [create_reduced_gate dq g] else []) := by
  intro ids
  induction ids with
  | nil => intro wave i _ _; simp [wave_append]
  | cons a rest ih =>
    intro wave i hnd hi
    rcases List.nodup_cons.mp hnd with ⟨har, hnr⟩
    rw [wave_append_cons]
    by_cases hfa : control_flag dq a (globalControls dq g) = true
    · rw [if_pos hfa]
      by_cases hia : i = a
      · subst hia
        rw [ih _ i hnr (by rw [List.length_set]; exact hi)]
        rw [getD_set_self _ _ _ _ hi]
        simp [har, hfa]
      · rw [ih _ i hnr (by rw [List.length_set]; exact hi)]
        rw [getD_set_ne _ _ _ _ _ hia]
        simp [List.mem_cons, hia]
    · rw [if_neg hfa, ih _ i hnr hi]
      by_cases hia : i = a
      · subst hia
        simp [har, hfa]
      · simp [List.mem_cons, hia]

/-- C5: a non-special gate handed to the wave builder is appended to
piece `i`'s device list exactly when, for every global control `c`,
bit `nglobal - global_reduced[c] - 1` of the piece index `i` is 1;
with no global control, or all control bits set, the reduced gate is
appended, otherwise piece `i`'s list is left unchanged. -/
theorem wave_activation (dq : DQState) (g : Gate) (ids : List Nat)
    (wave : List (List Gate)) (i : Nat) (hnd : ids.Nodup) (hi : i < wave.length)
    (hmem : i ∈ ids) :
    (wave_append dq g ids wave).getD i [] =
      (wave.getD i []) ++
        (if (globalControls dq g).all (fun c =>
              (i / 2 ^ (dq.nglobal - dq.global_qubits_list.indexOf c - 1)) % 2 == 1)
         then [create_reduced_gate dq g] else []) := by
  rw [wave_append_getD dq g ids wave i hnd hi, ← control_flag_eq_all]
  simp [hmem]

/-- A CNOT-style gate: control 0, target 1. -/
def cnotGate : Gate :=
  { targets := [1], controls := [0], is_swap := false, is_special_gate := false,
    isM := false, isVariationalLayer := false, tag := 3, swapReset := [] }

/-- Witness for `wave_activation`: on `dq21` (global set `{0}`) with a
CNOT controlled by global qubit 0, piece 1 keeps the reduced gate. -/
theorem wave_activation_witness :
    (wave_append dq21 cnotGate [0, 1] [[], []]).getD 1 [] =
      (List.getD [[], []] 1 []) ++
        (if (globalControls dq21 cnotGate).all (fun c =>
              (1 / 2 ^ (dq21.nglobal - dq21.global_qubits_list.indexOf c - 1)) % 2 == 1)
         then [create_reduced_gate dq21 cnotGate] else []) :=
  wave_activation dq21 cnotGate [0, 1] [[], []] 1 (by decide) (by decide) (by decide)

/-! ### C8: special waves and `special_queue` stay in lockstep -/

/-- Well-formed wave list: every entry is a special marker `[]` or a
non-special wave with one gate list per device. -/
def wfEntries (nd : Nat) (qs : List (List (List Gate))) : Prop :=
  ∀ e ∈ qs, e = [] ∨ e.length = nd

theorem consume_specials_of_count :
    ∀ (qs : List (List (List Gate))) (sp : List SItem),
      qs.countP (fun e => e.isEmpty) = sp.length → consume_specials qs sp = some [] := by
  intro qs
  induction qs with
  | nil =>
    intro sp h
    simp only [List.countP_nil] at h
    cases sp with
    | nil => rfl
    | cons s tl => simp at h
  | cons e rest ih =>
    intro sp h
    rw [List.countP_cons] at h
    by_cases he : e.isEmpty
    · cases sp with
      | nil => simp [he] at h
      | cons s tl =>
        have hred : consume_specials (e :: rest) (s :: tl) = consume_specials rest tl := by
          simp [consume_specials, he]
        rw [hred]
        refine ih tl ?_
        simp only [he, if_pos, List.length_cons] at h
        omega
    · have hred : consume_specials (e :: rest) sp = consume_specials rest sp := by
        simp [consume_specials, he]
      rw [hred]
      refine ih sp ?_
      simpa [he] using h

theorem extend_wave_inv (dq : DQState) (ids : List Nat) (g : Gate)
    (qs0 : List (List (List Gate))) (hnd : 1 ≤ dq.ndevices)
    (hwf : wfEntries dq.ndevices qs0) :
    wfEntries dq.ndevices (extend_wave dq ids qs0 g) ∧
      (extend_wave dq ids qs0 g).countP (fun e => e.isEmpty)
        = qs0.countP (fun e => e.isEmpty) := by
  unfold extend_wave
  by_cases hc : qs0.isEmpty || (qs0.getLastD []).isEmpty
  · rw [if_pos hc]
    have hdrop : (qs0 ++ [List.replicate dq.ndevices ([] : List Gate)]).dropLast = qs0 := by
      simp
    have hlast : (qs0 ++ [List.replicate dq.ndevices ([] : List Gate)]).getLastD []
        = List.replicate dq.ndevices ([] : List Gate) := by
      simp [List.getLastD_concat]
    simp only [hdrop, hlast]
    have hwlen : (wave_append dq g ids (List.replicate dq.ndevices ([] : List Gate))).length
        = dq.ndevices := by
      rw [wave_append_length]; simp
    have hwne : ¬ (wave_append dq g ids
        (List.replicate dq.ndevices ([] : List Gate))).isEmpty = true := by
      rw [List.isEmpty_iff_length_eq_zero, hwlen]
      omega
    constructor
    · intro e he
      rcases List.mem_append.mp he with he | he
      · exact hwf e he
      · right; rw [List.mem_singleton.mp he]; exact hwlen
    · simp [List.countP_append, List.countP_cons, hwne]
  · rw [if_neg hc]
    rcases List.eq_nil_or_concat qs0 with hq | ⟨init, last, hq⟩
    · rw [hq] at hc; simp at hc
    · rw [List.concat_eq_append] at hq
      rw [hq]
      have hlastne : ¬ (last : List (List Gate)).isEmpty = true := by
        rw [hq] at hc
        intro hl
        exact hc (by simp [List.getLastD_concat, hl])
      have hlastlen : last.length = dq.ndevices := by
        rcases hwf last
            (by rw [hq]; exact List.mem_append_right _ (List.mem_singleton_self _))
          with hl | hl
        · rw [hl] at hlastne; simp at hlastne
        · exact hl
      have hdrop : (init ++ [last]).dropLast = init := by simp
      have hlast : (init ++ [last]).getLastD [] = last := by simp [List.getLastD_concat]
      simp only [hdrop, hlast]
      have hwlen : (wave_append dq g ids last).length = dq.ndevices := by
        rw [wave_append_length]; exact hlastlen
      have hwne : ¬ (wave_append dq g ids last).isEmpty = true := by
        rw [List.isEmpty_iff_length_eq_zero, hwlen]
        omega
      constructor
      · intro e he
        rcases List.mem_append.mp he with he | he
        · exact hwf e (by rw [hq]; exact List.mem_append_left _ he)
        · right; rw [List.mem_singleton.mp he]; exact hwlen
      · simp only [List.countP_append, List.countP_cons, List.countP_nil]
        simp [hwne, hlastne]

theorem create_step_inv (dq : DQState) (ids : List Nat) (st : CreateState) (g : Gate)
    (st' : CreateState) (hnd : 1 ≤ dq.ndevices)
    (hwf : wfEntries dq.ndevices st.queues)
    (hcnt : st.queues.countP (fun e => e.isEmpty) = st.special_queue.length)
    (h : create_step dq ids st g = Except.ok st') :
    wfEntries dq.ndevices st'.queues ∧
      st'.queues.countP (fun e => e.isEmpty) = st'.special_queue.length := by
  have hmarker : ∀ (it : SItem),
      wfEntries dq.ndevices (st.queues ++ [([] : List (List Gate))]) ∧
        (st.queues ++ [([] : List (List Gate))]).countP (fun e => e.isEmpty)
          = (st.special_queue ++ [it]).length := by
    intro it
    constructor
    · intro e he
      rcases List.mem_append.mp he with he | he
      · exact hwf e he
      · left; simpa using he
    · simp [List.countP_append, hcnt, List.countP_cons]
  unfold create_step at h
  split at h
  · cases h
    exact hmarker _
  · split at h
    · cases h
      have := extend_wave_inv dq ids g st.queues hnd hwf
      exact ⟨this.1, this.2.trans hcnt⟩
    · split at h
      · exact Except.noConfusion h
      · split at h
        · exact Except.noConfusion h
        · split at h
          · exact Except.noConfusion h
          · split at h
            · split at h
              · exact Except.noConfusion h
              · cases h
                exact hmarker _
            · cases h
              exact hmarker _

theorem dqCreate_inv_aux (dq : DQState) (ids : List Nat) (hnd : 1 ≤ dq.ndevices) :
    ∀ (queue : List Gate) (st st' : CreateState),
      wfEntries dq.ndevices st.queues →
      st.queues.countP (fun e => e.isEmpty) = st.special_queue.length →
      List.foldlM (create_step dq ids) st queue = Except.ok st' →
      wfEntries dq.ndevices st'.queues ∧
        st'.queues.countP (fun e => e.isEmpty) = st'.special_queue.length := by
  intro queue
  induction queue with
  | nil =>
    intro st st' hwf hcnt h
    simp only [List.foldlM_nil] at h
    cases h
    exact ⟨hwf, hcnt⟩
  | cons g rest ih =>
    intro st st' hwf hcnt h
    rw [List.foldlM_cons] at h
    cases h1 : create_step dq ids st g with
    | error e => rw [h1] at h; simp [Bind.bind, Except.bind] at h
    | ok st1 =>
      rw [h1] at h
      simp only [Bind.bind, Except.bind] at h
      have := create_step_inv dq ids st g st1 hnd hwf hcnt h1
      exact ih st1 st' this.1 this.2 h

/-- C8: for any queue `create` succeeds on, the `[]` markers of the wave
list match `special_queue` one-to-one in order, so the `_execute` main
loop consumes the special iterator exactly and the post-loop drain over
the empty remainder executes no gate. -/
theorem special_waves_exhausted (dq : DQState) (ids : List Nat) (queue : List Gate)
    (st : CreateState) (hnd : 1 ≤ dq.ndevices)
    (h : dqCreate dq ids queue = Except.ok st) :
    st.queues.countP (fun e => e.isEmpty) = st.special_queue.length ∧
      consume_specials st.queues st.special_queue = some [] ∧
      drain_trailing [] = ([], false) := by
  have := dqCreate_inv_aux dq ids hnd queue { queues := [], special_queue := [] } st
    (by intro e he; cases he) (by rfl) h
  exact ⟨this.2, consume_specials_of_count _ _ this.2, rfl⟩

/-- Witness for `special_waves_exhausted`: a queue with one Hadamard
and one full-state special gate on `dq21`. -/
theorem special_waves_exhausted_witness :
    (dqCreate dq21 [0, 1] [hGate 1,
        { targets := [], controls := [], is_swap := false, is_special_gate := true,
          isM := false, isVariationalLayer := false, tag := 9, swapReset := [] }]).isOk = true ∧
      ∀ st, dqCreate dq21 [0, 1] [hGate 1,
        { targets := [], controls := [], is_swap := false, is_special_gate := true,
          isM := false, isVariationalLayer := false, tag := 9, swapReset := [] }] = Except.ok st →
        consume_specials st.queues st.special_queue = some [] := by
  constructor
  · decide
  · intro st h
    exact (special_waves_exhausted dq21 [0, 1] _ st (by decide) h).2.1

/-! ### Toolkit for the transformer proofs -/

theorem mem_pyset (xs : List Nat) (x : Nat) : x ∈ pyset xs ↔ x ∈ xs := by
  unfold pyset
  rw [List.mem_insertionSort, List.mem_dedup]

theorem pyset_nodup (xs : List Nat) : (pyset xs).Nodup :=
  ((List.perm_insertionSort _ _).nodup_iff).mpr (List.nodup_dedup xs)

theorem mem_pyinter (xs ys : List Nat) (x : Nat) :
    x ∈ pyinter xs ys ↔ x ∈ xs ∧ x ∈ ys := by
  unfold pyinter
  simp [List.mem_filter]

theorem pyinter_nodup (xs ys : List Nat) (h : xs.Nodup) : (pyinter xs ys).Nodup :=
  h.filter _

theorem argsort_nodup (c : List Int) : (argsort c).Nodup :=
  ((argsort_perm c).nodup_iff).mpr (List.nodup_range _)

theorem mem_globalTargets (gset : List Nat) (g : Gate) (x : Nat) :
    x ∈ globalTargets gset g ↔ x ∈ g.targets ∧ x ∈ gset := by
  unfold globalTargets
  rw [mem_pyinter, mem_pyset]

theorem globalTargets_nodup (gset : List Nat) (g : Gate) :
    (globalTargets gset g).Nodup :=
  pyinter_nodup _ _ (pyset_nodup _)

theorem accept0_swapReset (gset : List Nat) (g : Gate) (s : List (Nat × Nat)) :
    accept0 gset { g with swapReset := s } = accept0 gset g := rfl

theorem remapGate_is_swap (qmap : List (Nat × Nat)) (g : Gate) :
    (remapGate qmap g).is_swap = g.is_swap := rfl

theorem remapGate_targets (qmap : List (Nat × Nat)) (g : Gate) :
    (remapGate qmap g).targets = g.targets.map (remapQ qmap) := rfl

theorem buildQmap_shift (pairs : List (Nat × Nat)) :
    ∀ m : List (Nat × Nat),
      pairs.foldl (fun m p => m ++ [(p.1, p.2), (p.2, p.1)]) m = m ++ buildQmap pairs := by
  induction pairs with
  | nil => intro m; simp [buildQmap]
  | cons p ps ih =>
    intro m
    show ps.foldl _ (m ++ [(p.1, p.2), (p.2, p.1)]) = _
    rw [ih]
    have : buildQmap (p :: ps)
        = [] ++ [(p.1, p.2), (p.2, p.1)] ++ buildQmap ps := by
      show ps.foldl _ ([] ++ [(p.1, p.2), (p.2, p.1)]) = _
      rw [ih]
    rw [this]
    simp

theorem buildQmap_cons (p : Nat × Nat) (ps : List (Nat × Nat)) :
    buildQmap (p :: ps) = (p.1, p.2) :: (p.2, p.1) :: buildQmap ps := by
  show ps.foldl _ ([] ++ [(p.1, p.2), (p.2, p.1)]) = _
  rw [buildQmap_shift]
  rfl

theorem remapQ_not_mem (gtL : List Nat) :
    ∀ (pL : List Nat) (x : Nat), x ∉ gtL → x ∉ pL →
      remapQ (buildQmap (gtL.zip pL)) x = x := by
  induction gtL with
  | nil => intro pL x _ _; rfl
  | cons a as ih =>
    intro pL x hx1 hx2
    cases pL with
    | nil => rfl
    | cons b bs =>
      have hxa : a ≠ x := fun h => hx1 (h ▸ List.mem_cons_self a as)
      have hxb : b ≠ x := fun h => hx2 (h ▸ List.mem_cons_self b bs)
      show (alookup (buildQmap ((a, b) :: as.zip bs)) x).getD x = x
      rw [buildQmap_cons]
      show (if a = x then some b else if b = x then some a else
        alookup (buildQmap (as.zip bs)) x).getD x = x
      rw [if_neg hxa, if_neg hxb]
      exact ih bs x (fun h => hx1 (List.mem_cons_of_mem a h))
        (fun h => hx2 (List.mem_cons_of_mem b h))

theorem remapQ_mem_fst (gtL : List Nat) :
    ∀ (pL : List Nat) (x : Nat), gtL.Nodup → (∀ y ∈ gtL, y ∉ pL) →
      pL.length = gtL.length → x ∈ gtL →
      remapQ (buildQmap (gtL.zip pL)) x ∈ pL := by
  induction gtL with
  | nil => intro pL x _ _ _ hx; cases hx
  | cons a as ih =>
    intro pL x hnd hdisj hlen hx
    cases pL with
    | nil => simp at hlen
    | cons b bs =>
      rcases List.nodup_cons.mp hnd with ⟨hana, hnas⟩
      show (alookup (buildQmap ((a, b) :: as.zip bs)) x).getD x ∈ b :: bs
      rw [buildQmap_cons]
      show (if a = x then some b else if b = x then some a else
        alookup (buildQmap (as.zip bs)) x).getD x ∈ b :: bs
      by_cases hax : a = x
      · rw [if_pos hax]
        exact List.mem_cons_self b bs
      · rw [if_neg hax]
        have hxas : x ∈ as := by
          rcases List.mem_cons.mp hx with h | h
          · exact absurd h.symm hax
          · exact h
        have hbx : b ≠ x := fun h =>
          (hdisj x hx) (h ▸ List.mem_cons_self b bs)
        rw [if_neg hbx]
        have := ih bs x hnas
          (fun y hy hmem => (hdisj y (List.mem_cons_of_mem a hy)) (List.mem_cons_of_mem b hmem))
          (by simpa using hlen) hxas
        exact List.mem_cons_of_mem b this

theorem remapQ_mem_snd (gtL : List Nat) :
    ∀ (pL : List Nat) (x : Nat), pL.Nodup → (∀ y ∈ gtL, y ∉ pL) →
      pL.length = gtL.length → x ∈ pL →
      remapQ (buildQmap (gtL.zip pL)) x ∈ gtL := by
  induction gtL with
  | nil =>
    intro pL x _ _ hlen hx
    rw [List.length_eq_zero.mp hlen] at hx
    cases hx
  | cons a as ih =>
    intro pL x hnd hdisj hlen hx
    cases pL with
    | nil => cases hx
    | cons b bs =>
      rcases List.nodup_cons.mp hnd with ⟨hbnb, hnbs⟩
      show (alookup (buildQmap ((a, b) :: as.zip bs)) x).getD x ∈ a :: as
      rw [buildQmap_cons]
      show (if a = x then some b else if b = x then some a else
        alookup (buildQmap (as.zip bs)) x).getD x ∈ a :: as
      have hax : a ≠ x := fun h =>
        (hdisj a (List.mem_cons_self a as)) (h ▸ hx)
      rw [if_neg hax]
      by_cases hbx : b = x
      · rw [if_pos hbx]
        exact List.mem_cons_self a as
      · rw [if_neg hbx]
        have hxbs : x ∈ bs := by
          rcases List.mem_cons.mp hx with h | h
          · exact absurd h.symm hbx
          · exact h
        have := ih bs x hnbs
          (fun y hy hmem => (hdisj y (List.mem_cons_of_mem a hy)) (List.mem_cons_of_mem b hmem))
          (by simpa using hlen) hxbs
        exact List.mem_cons_of_mem a this

theorem foldl_set_length (f : List Gate → Nat → Gate) :
    ∀ (ids : List Nat) (c : List Gate),
      (ids.foldl (fun c i => c.set i (f c i)) c).length = c.length := by
  intro ids
  induction ids with
  | nil => intro c; rfl
  | cons a rest ih =>
    intro c
    show (rest.foldl _ (c.set a (f c a))).length = _
    rw [ih, List.length_set]

theorem foldl_set_getD_not_mem (f : List Gate → Nat → Gate) (d : Gate) :
    ∀ (ids : List Nat) (c : List Gate) (i : Nat), i ∉ ids →
      (ids.foldl (fun c i => c.set i (f c i)) c).getD i d = c.getD i d := by
  intro ids
  induction ids with
  | nil => intro c i _; rfl
  | cons a rest ih =>
    intro c i hi
    show (rest.foldl _ (c.set a (f c a))).getD i d = _
    have hia : i ≠ a := fun h => hi (h ▸ List.mem_cons_self a rest)
    rw [ih _ i (fun h => hi (List.mem_cons_of_mem a h)), getD_set_ne _ _ _ _ _ hia]

theorem foldl_set_getD_head (f : List Gate → Nat → Gate) (d : Gate)
    (hd : Nat) (tl : List Nat) (c : List Gate) (hnd : hd ∉ tl) (hlt : hd < c.length) :
    ((hd :: tl).foldl (fun c i => c.set i (f c i)) c).getD hd d = f c hd := by
  show (tl.foldl _ (c.set hd (f c hd))).getD hd d = _
  rw [foldl_set_getD_not_mem f d tl _ hd hnd, getD_set_self _ _ _ _ hlt]

/-- The fields of a gate object that `set_targets_and_controls` and the
`swap_reset` write leave untouched: the gate's identity. -/
def sameIdentity (a b : Gate) : Prop :=
  a.is_swap = b.is_swap ∧ a.is_special_gate = b.is_special_gate ∧
    a.isM = b.isM ∧ a.isVariationalLayer = b.isVariationalLayer ∧ a.tag = b.tag

theorem sameIdentity_refl (a : Gate) : sameIdentity a a :=
  ⟨rfl, rfl, rfl, rfl, rfl⟩

theorem sameIdentity_trans {a b c : Gate} (h1 : sameIdentity a b) (h2 : sameIdentity b c) :
    sameIdentity a c :=
  ⟨h1.1.trans h2.1, h1.2.1.trans h2.2.1, h1.2.2.1.trans h2.2.2.1,
   h1.2.2.2.1.trans h2.2.2.2.1, h1.2.2.2.2.trans h2.2.2.2.2⟩

theorem accept0_congr (gset : List Nat) (a b : Gate)
    (ht : a.targets = b.targets) (hs : a.is_swap = b.is_swap) :
    accept0 gset a = accept0 gset b := by
  unfold accept0 globalTargets
  rw [ht, hs]

theorem passStore_length (dq : DQState) (cq : List Gate) (i : Nat) :
    (passStore dq cq i).length = cq.length := by
  unfold passStore
  split_ifs
  · exact List.length_set cq i _
  · rfl

theorem passStore_getD_ne (dq : DQState) (cq : List Gate) (i j : Nat) (d : Gate)
    (h : j ≠ i) : (passStore dq cq i).getD j d = cq.getD j d := by
  unfold passStore
  split_ifs
  · exact getD_set_ne _ _ _ _ _ h
  · rfl

theorem passStore_getD_self (dq : DQState) (cq : List Gate) (i : Nat) :
    ((passStore dq cq i).getD i default).targets = (passGate dq cq i).targets ∧
      ((passStore dq cq i).getD i default).is_swap = (passGate dq cq i).is_swap := by
  unfold passStore passGate
  split_ifs with hs
  · by_cases hlt : i < cq.length
    · rw [getD_set_self _ _ _ _ hlt]
      exact ⟨rfl, rfl⟩
    · rw [List.set_eq_of_length_le (Nat.le_of_not_lt hlt)]
      have hd : cq.getD i default = default := by
        rw [List.getD_eq_getElem?_getD, List.getElem?_eq_none (Nat.le_of_not_lt hlt)]
        rfl
      rw [hd]
      exact ⟨rfl, rfl⟩
  · exact ⟨rfl, rfl⟩

theorem passStore_accept (dq : DQState) (gset : List Nat) (cq : List Gate) (i : Nat) :
    accept0 gset ((passStore dq cq i).getD i default) = accept0 gset (passGate dq cq i) :=
  accept0_congr _ _ _ (passStore_getD_self dq cq i).1 (passStore_getD_self dq cq i).2

theorem passStore_identity (dq : DQState) (cq : List Gate) (i j : Nat) :
    sameIdentity ((passStore dq cq i).getD j default) (cq.getD j default) := by
  by_cases hji : j = i
  · subst hji
    unfold passStore passGate
    split_ifs with hs
    · by_cases hlt : j < cq.length
      · rw [getD_set_self _ _ _ _ hlt]
        exact ⟨rfl, rfl, rfl, rfl, rfl⟩
      · rw [List.set_eq_of_length_le (Nat.le_of_not_lt hlt)]
        exact sameIdentity_refl _
    · exact sameIdentity_refl _
  · rw [passStore_getD_ne dq cq i j default hji]
    exact sameIdentity_refl _

theorem transformPass_spec (comm : Gate → Gate → Bool) (dq : DQState) :
    ∀ (rem : List Nat) (cq : List Gate) (acc : List (Sum Nat Gate)) (defr : List Nat)
      (counter : List Int) (cq1 : List Gate) (acc1 : List (Sum Nat Gate))
      (defr1 : List Nat) (counter1 : List Int),
      rem.Nodup →
      transformPass comm dq rem cq acc defr counter = (cq1, acc1, defr1, counter1) →
      cq1.length = cq.length ∧
      (∀ i, i ∉ rem → cq1.getD i default = cq.getD i default) ∧
      (∃ ds ns, defr1 = defr ++ ds ∧ ds.Sublist rem ∧ acc1 = acc ++ ns ∧
        (∀ ref ∈ ns, ∃ i, i ∈ rem ∧ ref = Sum.inl i ∧
          accept0 dq.global_qubits_set (cq1.getD i default) = true) ∧
        (∀ i, Sum.inl i ∈ ns → i ∉ ds)) ∧
      (∀ j, sameIdentity (cq1.getD j default) (cq.getD j default)) := by
  intro rem
  induction rem with
  | nil =>
    intro cq acc defr counter cq1 acc1 defr1 counter1 _ h
    cases h
    refine ⟨rfl, fun i _ => rfl,
      ⟨[], [], by simp, List.Sublist.refl [], by simp,
        fun ref hr => absurd hr (List.not_mem_nil ref),
        fun i hi => absurd hi (List.not_mem_nil _)⟩,
      fun j => sameIdentity_refl _⟩
  | cons i rest ih =>
    intro cq acc defr counter cq1 acc1 defr1 counter1 hnd h
    rcases List.nodup_cons.mp hnd with ⟨hir, hnr⟩
    simp only [transformPass] at h
    split at h
    · -- accepted
      next hb =>
      obtain ⟨h1, h2, ⟨ds, ns, hds, hdss, hns, hnsP, hdj⟩, h5⟩ :=
        ih (passStore dq cq i) (acc ++ [Sum.inl i]) defr
          (decTargets counter (passGate dq cq i).targets) cq1 acc1 defr1 counter1 hnr h
      refine ⟨h1.trans (passStore_length dq cq i), ?_,
        ⟨ds, Sum.inl i :: ns, hds, hdss.cons i, by rw [hns]; simp, ?_, ?_⟩, ?_⟩
      · intro i' hi'
        have hi'r : i' ∉ rest := fun hh => hi' (List.mem_cons_of_mem i hh)
        have hi'i : i' ≠ i := fun hh => hi' (hh ▸ List.mem_cons_self i rest)
        rw [h2 i' hi'r, passStore_getD_ne dq cq i i' default hi'i]
      · intro ref hr
        rcases List.mem_cons.mp hr with hr | hr
        · subst hr
          refine ⟨i, List.mem_cons_self i rest, rfl, ?_⟩
          rw [h2 i hir, passStore_accept]
          exact ((Bool.and_eq_true _ _).mp hb).1
        · obtain ⟨i', hi'm, hre, hacc⟩ := hnsP ref hr
          exact ⟨i', List.mem_cons_of_mem i hi'm, hre, hacc⟩
      · intro j hj
        rcases List.mem_cons.mp hj with hj | hj
        · have hj' : j = i := by injection hj
          subst hj'
          exact fun hmem => hir (hdss.subset hmem)
        · exact hdj j hj
      · intro j
        exact sameIdentity_trans (h5 j) (passStore_identity dq cq i j)
    · -- deferred
      next hb =>
      obtain ⟨h1, h2, ⟨ds, ns, hds, hdss, hns, hnsP, hdj⟩, h5⟩ :=
        ih (passStore dq cq i) acc (defr ++ [i]) counter cq1 acc1 defr1 counter1 hnr h
      refine ⟨h1.trans (passStore_length dq cq i), ?_,
        ⟨i :: ds, ns, by rw [hds]; simp, hdss.cons₂ i, hns, ?_, ?_⟩, ?_⟩
      · intro i' hi'
        have hi'r : i' ∉ rest := fun hh => hi' (List.mem_cons_of_mem i hh)
        have hi'i : i' ≠ i := fun hh => hi' (hh ▸ List.mem_cons_self i rest)
        rw [h2 i' hi'r, passStore_getD_ne dq cq i i' default hi'i]
      · intro ref hr
        obtain ⟨i', hi'm, hre, hacc⟩ := hnsP ref hr
        exact ⟨i', List.mem_cons_of_mem i hi'm, hre, hacc⟩
      · intro j hj
        obtain ⟨i', hi'm, hre, -⟩ := hnsP (Sum.inl j) hj
        have hji' : j = i' := by injection hre
        subst hji'
        intro hmem
        rcases List.mem_cons.mp hmem with hh | hh
        · exact hir (hh ▸ hi'm)
        · exact hdj j hj hh
      · intro j
        exact sameIdentity_trans (h5 j) (passStore_identity dq cq i j)

/-- The `DeviceQueues` bookkeeping with the (mutable) `swaps_list`
cleared: everything `__init__` derived from the partition. -/
def clear_swaps (dq : DQState) : DQState := { dq with swaps_list := [] }

theorem remapGate_identity (qmap : List (Nat × Nat)) (g : Gate) :
    sameIdentity (remapGate qmap g) g :=
  ⟨rfl, rfl, rfl, rfl, rfl⟩

theorem foldl_set_identity (f : List Gate → Nat → Gate)
    (hf : ∀ c i, sameIdentity (f c i) (c.getD i default)) :
    ∀ (ids : List Nat) (c : List Gate) (j : Nat),
      sameIdentity ((ids.foldl (fun c i => c.set i (f c i)) c).getD j default)
        (c.getD j default) := by
  intro ids
  induction ids with
  | nil => intro c j; exact sameIdentity_refl _
  | cons a rest ih =>
    intro c j
    show sameIdentity ((rest.foldl _ (c.set a (f c a))).getD j default) _
    refine sameIdentity_trans (ih (c.set a (f c a)) j) ?_
    by_cases hja : j = a
    · subst hja
      by_cases hlt : j < c.length
      · rw [getD_set_self _ _ _ _ hlt]
        exact hf c j
      · rw [List.set_eq_of_length_le (Nat.le_of_not_lt hlt)]
        exact sameIdentity_refl _
    · rw [getD_set_ne _ _ _ _ _ hja]
      exact sameIdentity_refl _

theorem reconfigure_ok_inv (dq : DQState) (cq : List Gate) (hd : Nat) (tl : List Nat)
    (counter : List Int) (dq2 : DQState) (cq2 : List Gate) (sg : List Gate) (c2 : List Int)
    (h : reconfigure dq cq (hd :: tl) counter = Except.ok (dq2, cq2, sg, c2)) :
    ¬((cq.getD hd default).is_swap = true ∧ (reconfGt0 dq cq hd).length ≠ 2) ∧
      (reconfGt dq cq hd).length ≤ (reconfAvail dq cq hd counter).length ∧
      dq2 = { dq with swaps_list := dq.swaps_list ++
          (reconfPairs dq cq hd counter).map (fun p => (min p.1 p.2, max p.1 p.2)) } ∧
      cq2 = (hd :: tl).foldl
        (fun c i =>
          c.set i (remapGate (buildQmap (reconfPairs dq cq hd counter)) (c.getD i default)))
        cq ∧
      sg = (reconfPairs dq cq hd counter).map (fun p => mkSwap p.1 p.2) := by
  unfold reconfigure at h
  split at h
  · exact Except.noConfusion h
  · split at h
    · exact Except.noConfusion h
    · split at h
      · rename_i hA hB
        cases h
        exact ⟨hA, hB, rfl, rfl, rfl⟩
      · exact Except.noConfusion h

theorem reconfigure_spec (dq : DQState) (cq : List Gate) (rem : List Nat)
    (counter : List Int) (dq2 : DQState) (cq2 : List Gate) (sg : List Gate)
    (c2 : List Int)
    (h : reconfigure dq cq rem counter = Except.ok (dq2, cq2, sg, c2)) :
    clear_swaps dq2 = clear_swaps dq ∧
      (∃ add, dq2.swaps_list = dq.swaps_list ++ add) ∧
      cq2.length = cq.length ∧
      (∀ i, i ∉ rem → cq2.getD i default = cq.getD i default) ∧
      (∀ g' ∈ sg, g'.is_swap = true) ∧
      (∀ j, sameIdentity (cq2.getD j default) (cq.getD j default)) := by
  cases rem with
  | nil => exact absurd h (by simp [reconfigure])
  | cons hd tl =>
    obtain ⟨hA, hB, hdq2, hcq2, hsg⟩ :=
      reconfigure_ok_inv dq cq hd tl counter dq2 cq2 sg c2 h
    refine ⟨by rw [hdq2]; rfl, ⟨_, by rw [hdq2]⟩, by rw [hcq2]; exact foldl_set_length _ _ _,
      ?_, ?_, ?_⟩
    · intro i hi
      rw [hcq2]
      exact foldl_set_getD_not_mem _ default _ _ i hi
    · intro g' hg'
      rw [hsg] at hg'
      obtain ⟨p, _, hp⟩ := List.mem_map.mp hg'
      rw [← hp]
      rfl
    · intro j
      rw [hcq2]
      exact foldl_set_identity _ (fun c i => remapGate_identity _ _) _ cq j


theorem reconfigure_global_set (dq : DQState) (cq : List Gate) (rem : List Nat)
    (counter : List Int) (dq2 : DQState) (cq2 : List Gate) (sg : List Gate)
    (c2 : List Int)
    (h : reconfigure dq cq rem counter = Except.ok (dq2, cq2, sg, c2)) :
    dq2.global_qubits_set = dq.global_qubits_set := by
  have := (reconfigure_spec dq cq rem counter dq2 cq2 sg c2 h).1
  calc dq2.global_qubits_set = (clear_swaps dq2).global_qubits_set := rfl
    _ = (clear_swaps dq).global_qubits_set := by rw [this]
    _ = dq.global_qubits_set := rfl

theorem headD_cons_tail {α : Type} (l : List α) (d : α) (h : l ≠ []) :
    l.headD d :: l.tail = l := by
  cases l with
  | nil => exact absurd rfl h
  | cons a t => rfl

theorem reconfTset0_eq (cq : List Gate) (hd : Nat) :
    reconfTset0 cq hd = pyset (cq.getD hd default).targets := rfl

theorem mem_reconfTset0 (cq : List Gate) (hd x : Nat) :
    x ∈ reconfTset0 cq hd ↔ x ∈ (cq.getD hd default).targets := by
  rw [reconfTset0_eq, mem_pyset]

theorem reconfTset0_nodup (cq : List Gate) (hd : Nat) : (reconfTset0 cq hd).Nodup := by
  rw [reconfTset0_eq]
  exact pyset_nodup _

theorem reconfGt0_eq (dq : DQState) (cq : List Gate) (hd : Nat) :
    reconfGt0 dq cq hd = pyinter (reconfTset0 cq hd) dq.global_qubits_set := rfl

theorem mem_reconfGt0 (dq : DQState) (cq : List Gate) (hd x : Nat) :
    x ∈ reconfGt0 dq cq hd ↔
      x ∈ (cq.getD hd default).targets ∧ x ∈ dq.global_qubits_set := by
  rw [reconfGt0_eq, mem_pyinter, mem_reconfTset0]

theorem reconfGt0_nodup (dq : DQState) (cq : List Gate) (hd : Nat) :
    (reconfGt0 dq cq hd).Nodup := by
  rw [reconfGt0_eq]
  exact pyinter_nodup _ _ (reconfTset0_nodup cq hd)

theorem reconfGt_nodup (dq : DQState) (cq : List Gate) (hd : Nat) :
    (reconfGt dq cq hd).Nodup := by
  unfold reconfGt
  split_ifs
  · exact (reconfGt0_nodup dq cq hd).erase _
  · exact reconfGt0_nodup dq cq hd

theorem reconfGt_sub (dq : DQState) (cq : List Gate) (hd x : Nat)
    (h : x ∈ reconfGt dq cq hd) : x ∈ reconfGt0 dq cq hd := by
  unfold reconfGt at h
  split_ifs at h
  · exact List.mem_of_mem_erase h
  · exact h

theorem mem_reconfAvail (dq : DQState) (cq : List Gate) (hd : Nat) (counter : List Int)
    (x : Nat) (h : x ∈ reconfAvail dq cq hd counter) :
    x ∉ dq.global_qubits_set ∧ x ∉ reconfTset dq cq hd := by
  unfold reconfAvail at h
  have := List.mem_filter.mp h
  simpa using this.2

theorem reconfigure_head (dq : DQState) (cq : List Gate) (hd : Nat) (tl : List Nat)
    (counter : List Int) (dq2 : DQState) (cq2 : List Gate) (sg : List Gate) (c2 : List Int)
    (hnd : hd ∉ tl) (hlt : hd < cq.length)
    (h : reconfigure dq cq (hd :: tl) counter = Except.ok (dq2, cq2, sg, c2)) :
    accept0 dq.global_qubits_set (cq2.getD hd default) = true := by
  obtain ⟨hA, hB, -, hcq2, -⟩ := reconfigure_ok_inv dq cq hd tl counter dq2 cq2 sg c2 h
  have hcq2hd : cq2.getD hd default
      = remapGate (buildQmap (reconfPairs dq cq hd counter)) (cq.getD hd default) := by
    rw [hcq2]
    exact foldl_set_getD_head _ default hd tl cq hnd hlt
  rw [hcq2hd]
  have hpairs : reconfPairs dq cq hd counter
      = (reconfGt dq cq hd).zip
          ((reconfAvail dq cq hd counter).take (reconfGt dq cq hd).length) := rfl
  have hplen : ((reconfAvail dq cq hd counter).take (reconfGt dq cq hd).length).length
      = (reconfGt dq cq hd).length := by
    rw [List.length_take]
    exact min_eq_left hB
  have hgtnd : (reconfGt dq cq hd).Nodup := reconfGt_nodup dq cq hd
  have hpG : ∀ y ∈ (reconfAvail dq cq hd counter).take (reconfGt dq cq hd).length,
      y ∉ dq.global_qubits_set ∧ y ∉ reconfTset dq cq hd := fun y hy =>
    mem_reconfAvail dq cq hd counter y (List.mem_of_mem_take hy)
  have hgtG : ∀ y ∈ reconfGt dq cq hd, y ∈ dq.global_qubits_set := fun y hy =>
    ((mem_reconfGt0 dq cq hd y).mp (reconfGt_sub dq cq hd y hy)).2
  have hdisj : ∀ y ∈ reconfGt dq cq hd,
      y ∉ (reconfAvail dq cq hd counter).take (reconfGt dq cq hd).length := fun y hy hyp =>
    (hpG y hyp).1 (hgtG y hy)
  have htmem : ∀ t ∈ (cq.getD hd default).targets, t ∈ reconfTset0 cq hd := fun t ht =>
    (mem_reconfTset0 cq hd t).mpr ht
  have hmapfst : ∀ x ∈ reconfGt dq cq hd,
      remapQ (buildQmap (reconfPairs dq cq hd counter)) x
        ∈ (reconfAvail dq cq hd counter).take (reconfGt dq cq hd).length := by
    intro x hx
    rw [hpairs]
    exact remapQ_mem_fst _ _ x hgtnd hdisj hplen hx
  have hmapid : ∀ x, x ∉ reconfGt dq cq hd →
      x ∉ (reconfAvail dq cq hd counter).take (reconfGt dq cq hd).length →
      remapQ (buildQmap (reconfPairs dq cq hd counter)) x = x := by
    intro x hx1 hx2
    rw [hpairs]
    exact remapQ_not_mem _ _ x hx1 hx2
  by_cases hsw : (cq.getD hd default).is_swap = true
  · -- SWAP head
    have hlen2 : (reconfGt0 dq cq hd).length = 2 := by
      by_contra hne
      exact hA ⟨hsw, hne⟩
    have hgt0ne : reconfGt0 dq cq hd ≠ [] := by
      intro hh
      rw [hh] at hlen2
      simp at hlen2
    have hts0ne : reconfTset0 cq hd ≠ [] := by
      obtain ⟨x, hx⟩ := List.exists_mem_of_ne_nil _ hgt0ne
      exact List.ne_nil_of_mem
        ((mem_reconfTset0 cq hd x).mpr ((mem_reconfGt0 dq cq hd x).mp hx).1)
    have hts0 : (reconfTset0 cq hd).headD 0 :: (reconfTset0 cq hd).tail
        = reconfTset0 cq hd := headD_cons_tail _ 0 hts0ne
    have hetargets : (reconfTset0 cq hd).headD 0 ∈ (cq.getD hd default).targets :=
      (mem_reconfTset0 cq hd _).mp (by rw [← hts0]; exact List.mem_cons_self _ _)
    have htset : reconfTset dq cq hd = (reconfTset0 cq hd).tail := by
      unfold reconfTset
      rw [if_pos hsw, List.drop_one]
    have hgtL : reconfGt dq cq hd
        = (reconfGt0 dq cq hd).erase ((reconfTset0 cq hd).headD 0) := by
      unfold reconfGt
      rw [if_pos hsw]
    have hCL : ∀ t ∈ (cq.getD hd default).targets,
        remapQ (buildQmap (reconfPairs dq cq hd counter)) t ∈ dq.global_qubits_set →
        t = (reconfTset0 cq hd).headD 0 := by
      intro t ht hinG
      by_cases h1 : t ∈ reconfGt dq cq hd
      · exact absurd hinG ((hpG _ (hmapfst t h1)).1)
      · by_cases h2 : t ∈ (reconfAvail dq cq hd counter).take (reconfGt dq cq hd).length
        · have htt : t ∈ reconfTset0 cq hd := htmem t ht
          have hnt : t ∉ (reconfTset0 cq hd).tail := by
            rw [← htset]
            exact (hpG t h2).2
          rw [← hts0] at htt
          rcases List.mem_cons.mp htt with hh | hh
          · exact hh
          · exact absurd hh hnt
        · rw [hmapid t h1 h2] at hinG
          have hgt0 : t ∈ reconfGt0 dq cq hd := (mem_reconfGt0 dq cq hd t).mpr ⟨ht, hinG⟩
          by_contra hne
          apply h1
          rw [hgtL]
          exact ((reconfGt0_nodup dq cq hd).mem_erase_iff).mpr ⟨hne, hgt0⟩
    by_cases hx0 : remapQ (buildQmap (reconfPairs dq cq hd counter))
        ((reconfTset0 cq hd).headD 0) ∈ dq.global_qubits_set
    · have hsingle : globalTargets dq.global_qubits_set
          (remapGate (buildQmap (reconfPairs dq cq hd counter)) (cq.getD hd default))
          = [remapQ (buildQmap (reconfPairs dq cq hd counter))
              ((reconfTset0 cq hd).headD 0)] := by
        unfold globalTargets pyinter
        rw [remapGate_targets]
        apply filter_eq_singleton_of
        · exact pyset_nodup _
        · exact (mem_pyset _ _).mpr (List.mem_map.mpr ⟨_, hetargets, rfl⟩)
        · simpa using hx0
        · intro y hy hpy
          obtain ⟨t, ht, hty⟩ := List.mem_map.mp ((mem_pyset _ _).mp hy)
          have hyG : y ∈ dq.global_qubits_set := by simpa using hpy
          have hte := hCL t ht (by rw [hty]; exact hyG)
          rw [← hty, hte]
      unfold accept0
      rw [hsingle, remapGate_is_swap, hsw]
      simp
    · have hnil : globalTargets dq.global_qubits_set
          (remapGate (buildQmap (reconfPairs dq cq hd counter)) (cq.getD hd default))
          = [] := by
        unfold globalTargets pyinter
        rw [remapGate_targets]
        apply List.filter_eq_nil_iff.mpr
        intro y hy hpy
        obtain ⟨t, ht, hty⟩ := List.mem_map.mp ((mem_pyset _ _).mp hy)
        have hyG : y ∈ dq.global_qubits_set := by simpa using hpy
        have hte := hCL t ht (by rw [hty]; exact hyG)
        rw [hte] at hty
        exact hx0 (by rw [hty]; exact hyG)
      unfold accept0
      rw [hnil]
      simp
  · -- non-SWAP head: every target is remapped off the global set
    have htset : reconfTset dq cq hd = reconfTset0 cq hd := by
      unfold reconfTset
      rw [if_neg hsw]
    have hgtL : reconfGt dq cq hd = reconfGt0 dq cq hd := by
      unfold reconfGt
      rw [if_neg hsw]
    have hCLn : ∀ t ∈ (cq.getD hd default).targets,
        remapQ (buildQmap (reconfPairs dq cq hd counter)) t ∉ dq.global_qubits_set := by
      intro t ht hinG
      by_cases h1 : t ∈ reconfGt dq cq hd
      · exact (hpG _ (hmapfst t h1)).1 hinG
      · by_cases h2 : t ∈ (reconfAvail dq cq hd counter).take (reconfGt dq cq hd).length
        · exact (hpG t h2).2 (by rw [htset]; exact htmem t ht)
        · rw [hmapid t h1 h2] at hinG
          apply h1
          rw [hgtL]
          exact (mem_reconfGt0 dq cq hd t).mpr ⟨ht, hinG⟩
    have hnil : globalTargets dq.global_qubits_set
        (remapGate (buildQmap (reconfPairs dq cq hd counter)) (cq.getD hd default))
        = [] := by
      unfold globalTargets pyinter
      rw [remapGate_targets]
      apply List.filter_eq_nil_iff.mpr
      intro y hy hpy
      obtain ⟨t, ht, hty⟩ := List.mem_map.mp ((mem_pyset _ _).mp hy)
      have hyG : y ∈ dq.global_qubits_set := by simpa using hpy
      exact hCLn t ht (by rw [hty]; exact hyG)
    unfold accept0
    rw [hnil]
    simp

theorem passGate_accept (dq : DQState) (gset : List Nat) (cq : List Gate) (i : Nat) :
    accept0 gset (passGate dq cq i) = accept0 gset (cq.getD i default) := by
  unfold passGate
  split_ifs
  · exact accept0_swapReset gset (cq.getD i default) dq.swaps_list
  · rfl

theorem accept0_default (gset : List Nat) : accept0 gset (default : Gate) = true := rfl

theorem transformPass_defr_head (comm : Gate → Gate → Bool) (dq : DQState) :
    ∀ (rem : List Nat) (cq : List Gate) (acc : List (Sum Nat Gate)) (defr : List Nat)
      (counter : List Int) (cq1 : List Gate) (acc1 : List (Sum Nat Gate))
      (defr1 : List Nat) (counter1 : List Int),
      rem.Nodup → (∀ j ∈ defr, j ∉ rem) →
      (∀ h0 t0, defr = h0 :: t0 →
        accept0 dq.global_qubits_set (cq.getD h0 default) = false) →
      transformPass comm dq rem cq acc defr counter = (cq1, acc1, defr1, counter1) →
      ∀ h0 t0, defr1 = h0 :: t0 →
        accept0 dq.global_qubits_set (cq1.getD h0 default) = false := by
  intro rem
  induction rem with
  | nil =>
    intro cq acc defr counter cq1 acc1 defr1 counter1 _ _ hhead h
    cases h
    exact hhead
  | cons i rest ih =>
    intro cq acc defr counter cq1 acc1 defr1 counter1 hnd hdisj hhead h
    rcases List.nodup_cons.mp hnd with ⟨hir, hnr⟩
    simp only [transformPass] at h
    split at h
    · -- accepted: deferred list unchanged
      next hb =>
      refine ih (passStore dq cq i) _ defr _ cq1 acc1 defr1 counter1 hnr ?_ ?_ h
      · intro j hj
        exact fun hjr => hdisj j hj (List.mem_cons_of_mem i hjr)
      · intro h0 t0 hdef
        have hne : h0 ≠ i := fun hh =>
          hdisj h0 (hdef ▸ List.mem_cons_self h0 t0) (hh ▸ List.mem_cons_self i rest)
        rw [passStore_getD_ne dq cq i h0 default hne]
        exact hhead h0 t0 hdef
    · -- deferred: the gate is appended to the deferred list
      next hb =>
      refine ih (passStore dq cq i) acc (defr ++ [i]) _ cq1 acc1 defr1 counter1 hnr ?_ ?_ h
      · intro j hj
        rcases List.mem_append.mp hj with hj | hj
        · exact fun hjr => hdisj j hj (List.mem_cons_of_mem i hjr)
        · rw [List.mem_singleton.mp hj]
          exact hir
      · intro h0 t0 hdef
        cases defr with
        | nil =>
          simp only [List.nil_append] at hdef
          cases hdef
          rw [passStore_accept, passGate_accept]
          simp only [List.all_nil, Bool.and_true] at hb
          rw [passGate_accept] at hb
          exact Bool.eq_false_iff.mpr hb
        | cons d0 dt =>
          have hdef' : d0 :: (dt ++ [i]) = h0 :: t0 := by simpa using hdef
          have hd0 : d0 = h0 := by injection hdef'
          have hne : h0 ≠ i := fun hh =>
            hdisj h0 (hd0 ▸ List.mem_cons_self d0 dt) (hh ▸ List.mem_cons_self i rest)
          rw [passStore_getD_ne dq cq i h0 default hne]
          exact hd0 ▸ hhead d0 dt rfl

theorem transformPass_head_accepted (comm : Gate → Gate → Bool) (dq : DQState)
    (i : Nat) (rest : List Nat) (cq : List Gate) (acc : List (Sum Nat Gate))
    (counter : List Int) (cq1 : List Gate) (acc1 : List (Sum Nat Gate))
    (defr1 : List Nat) (counter1 : List Int)
    (hnd : (i :: rest).Nodup)
    (hacc : accept0 dq.global_qubits_set (cq.getD i default) = true)
    (h : transformPass comm dq (i :: rest) cq acc [] counter = (cq1, acc1, defr1, counter1)) :
    defr1.length ≤ rest.length := by
  simp only [transformPass] at h
  have hcond : (accept0 dq.global_qubits_set (passGate dq cq i) &&
      List.all [] (fun j => comm ((passStore dq cq i).getD j default) (passGate dq cq i)))
      = true := by
    rw [passGate_accept, hacc]
    simp
  rw [if_pos hcond] at h
  obtain ⟨-, -, ⟨ds, ns, hds, hsub, -, -, -⟩, -⟩ :=
    transformPass_spec comm dq rest _ _ _ _ _ _ _ _ (List.nodup_cons.mp hnd).2 h
  rw [hds]
  simpa using hsub.length_le

/-- Head-acceptability: the first deferred gate will pass the target
test of the next pass. -/
def headAcc (dq : DQState) (cq : List Gate) : List Nat → Prop
  | [] => False
  | h0 :: _ => accept0 dq.global_qubits_set (cq.getD h0 default) = true

theorem transformAux_total (comm : Gate → Gate → Bool) :
    ∀ (fuel : Nat) (dq : DQState) (cq : List Gate) (acc : List (Sum Nat Gate))
      (rem : List Nat) (counter : List Int),
      rem.Nodup →
      (rem.length + 1 ≤ fuel ∨ (headAcc dq cq rem ∧ rem.length ≤ fuel)) →
      (transformAux comm fuel dq cq acc rem counter).isSome = true := by
  intro fuel
  induction fuel with
  | zero =>
    intro dq cq acc rem counter hnd hor
    rcases hor with h | ⟨hh, hl⟩
    · omega
    · rw [List.length_eq_zero.mp (Nat.le_zero.mp hl)] at hh
      exact absurd hh (by simp [headAcc])
  | succ fuel ih =>
    intro dq cq acc rem counter hnd hor
    simp only [transformAux]
    rcases hps : transformPass comm dq rem cq acc [] counter with
      ⟨cq1, acc1, defr, counter1⟩
    obtain ⟨hlen1, huntouched, ⟨ds, ns, hds, hsub, -, -, -⟩, -⟩ :=
      transformPass_spec comm dq rem cq acc [] counter cq1 acc1 defr counter1 hnd hps
    simp only [List.nil_append] at hds
    by_cases hdefr : defr.isEmpty
    · simp [hdefr]
    · rw [if_neg (by simpa using hdefr)]
      cases hrc : reconfigure dq cq1 defr counter1 with
      | error e => simp
      | ok r =>
        rcases r with ⟨dq2, cq2, sgates, counter2⟩
        have hdnodup : defr.Nodup := hds ▸ hsub.nodup hnd
        cases hdef : defr with
        | nil => rw [hdef] at hdefr; simp at hdefr
        | cons h0 t0 =>
          rw [hdef] at hrc hdnodup
          have hnotacc : accept0 dq.global_qubits_set (cq1.getD h0 default) = false :=
            transformPass_defr_head comm dq rem cq acc [] counter cq1 acc1 defr counter1
              hnd (fun j hj => absurd hj (List.not_mem_nil j))
              (fun _ _ hh => List.noConfusion hh) hps h0 t0 hdef
          have hh0lt : h0 < cq1.length := by
            by_contra hge
            have : cq1.getD h0 default = default := by
              rw [List.getD_eq_getElem?_getD,
                List.getElem?_eq_none (Nat.le_of_not_lt hge)]
              rfl
            rw [this, accept0_default] at hnotacc
            cases hnotacc
          have hheadacc2 : headAcc dq2 cq2 (h0 :: t0) := by
            show accept0 dq2.global_qubits_set (cq2.getD h0 default) = true
            rw [reconfigure_global_set dq cq1 (h0 :: t0) counter1 dq2 cq2 sgates counter2 hrc]
            exact reconfigure_head dq cq1 h0 t0 counter1 dq2 cq2 sgates counter2
              (List.nodup_cons.mp hdnodup).1 hh0lt hrc
          have hdlen : defr.length ≤ rem.length := by
            rw [hds]
            exact hsub.length_le
          apply ih dq2 cq2 _ (h0 :: t0) counter2 hdnodup
          right
          refine ⟨hheadacc2, ?_⟩
          rcases hor with hfuel | ⟨hha, hlenr⟩
          · rw [← hdef]
            omega
          · -- head of `rem` was acceptable, so the pass accepted it
            cases hrem : rem with
            | nil =>
              rw [hrem] at hps
              have hdnil : defr = [] := by
                have := congrArg (fun x => x.2.2.1) hps
                simpa using this.symm
              rw [hdnil] at hdef
              exact List.noConfusion hdef
            | cons i irest =>
              rw [hrem] at hps hnd
              have hacc : accept0 dq.global_qubits_set (cq.getD i default) = true := by
                have := hha
                rw [hrem] at this
                exact this
              have := transformPass_head_accepted comm dq i irest cq acc counter
                cq1 acc1 defr counter1 hnd hacc hps
              rw [← hdef]
              rw [hrem] at hlenr
              simp only [List.length_cons] at hlenr
              omega

/-- C9: `transform` terminates on every finite input queue — running
the recursion of `_transform` on the full index range of the gate store
with `|Q| + 1` units of fuel (one per pass, so at most `|Q|` recursive
calls) always completes: after a reconfiguration the head deferred gate
is accepted on the next pass, so every pass after the first consumes at
least one deferred gate. -/
theorem transform_terminates (comm : Gate → Gate → Bool) (dq : DQState)
    (cq : List Gate) (counter : List Int) :
    (transformAux comm (cq.length + 1) dq cq [] (List.range cq.length) counter).isSome
      = true :=
  transformAux_total comm (cq.length + 1) dq cq [] (List.range cq.length) counter
    (List.nodup_range _) (Or.inl (by simp))

theorem resolveRef_congr (cq1 cq : List Gate) (ref : Sum Nat Gate)
    (h : ∀ i, ref = Sum.inl i → cq1.getD i default = cq.getD i default) :
    resolveRef cq1 ref = resolveRef cq ref := by
  cases ref with
  | inl i => exact h i rfl
  | inr g => rfl

theorem accept0_no_swap (gset : List Nat) (g : Gate) (h : accept0 gset g = true)
    (hs : g.is_swap = false) : globalTargets gset g = [] := by
  unfold accept0 at h
  rw [hs] at h
  simpa using h

theorem transformAux_no_global (comm : Gate → Gate → Bool) :
    ∀ (fuel : Nat) (dq : DQState) (cq : List Gate) (acc : List (Sum Nat Gate))
      (rem : List Nat) (counter : List Int) (dq' : DQState) (cq' : List Gate)
      (acc' : List (Sum Nat Gate)),
      rem.Nodup →
      (∀ i, Sum.inl i ∈ acc → i ∉ rem) →
      (∀ ref ∈ acc, (resolveRef cq ref).is_swap = false →
        globalTargets dq.global_qubits_set (resolveRef cq ref) = []) →
      transformAux comm fuel dq cq acc rem counter = some (Except.ok (dq', cq', acc')) →
      dq'.global_qubits_set = dq.global_qubits_set ∧
        ∀ ref ∈ acc', (resolveRef cq' ref).is_swap = false →
          globalTargets dq.global_qubits_set (resolveRef cq' ref) = [] := by
  intro fuel
  induction fuel with
  | zero =>
    intro dq cq acc rem counter dq' cq' acc' _ _ _ h
    exact Option.noConfusion h
  | succ fuel ih =>
    intro dq cq acc rem counter dq' cq' acc' hnd hdisj hP h
    simp only [transformAux] at h
    rcases hps : transformPass comm dq rem cq acc [] counter with
      ⟨cq1, acc1, defr, counter1⟩
    rw [hps] at h
    obtain ⟨hlen1, huntouch, ⟨ds, ns, hds, hsub, hns, hnsP, hdj⟩, -⟩ :=
      transformPass_spec comm dq rem cq acc [] counter cq1 acc1 defr counter1 hnd hps
    simp only [List.nil_append] at hds
    have hP1 : ∀ ref ∈ acc1, (resolveRef cq1 ref).is_swap = false →
        globalTargets dq.global_qubits_set (resolveRef cq1 ref) = [] := by
      intro ref hr hsw
      rw [hns] at hr
      rcases List.mem_append.mp hr with hr | hr
      · have heq : resolveRef cq1 ref = resolveRef cq ref :=
          resolveRef_congr cq1 cq ref (fun i hi => huntouch i (hdisj i (hi ▸ hr)))
        rw [heq] at hsw ⊢
        exact hP ref hr hsw
      · obtain ⟨i, him, hre, hacc⟩ := hnsP ref hr
        subst hre
        exact accept0_no_swap _ _ hacc hsw
    have hdisj1' : ∀ i, Sum.inl i ∈ acc1 → i ∉ ds := by
      intro i hi
      rw [hns] at hi
      rcases List.mem_append.mp hi with hi | hi
      · exact fun hmem => hdisj i hi (hsub.subset hmem)
      · exact hdj i hi
    split at h
    · cases h
      exact ⟨rfl, hP1⟩
    · cases hrc : reconfigure dq cq1 defr counter1 with
      | error e =>
        rw [hrc] at h
        simp at h
      | ok r =>
        rcases r with ⟨dq2, cq2, sgates, counter2⟩
        rw [hrc] at h
        obtain ⟨hcs, ⟨add, hadd⟩, hlen2, huntouch2, hsg, -⟩ :=
          reconfigure_spec dq cq1 defr counter1 dq2 cq2 sgates counter2 hrc
        have hgset2 : dq2.global_qubits_set = dq.global_qubits_set :=
          reconfigure_global_set dq cq1 defr counter1 dq2 cq2 sgates counter2 hrc
        have hnd2 : defr.Nodup := hds ▸ hsub.nodup hnd
        have hdisj2 : ∀ i, Sum.inl i ∈ acc1 ++ sgates.map Sum.inr → i ∉ defr := by
          intro i hi
          rcases List.mem_append.mp hi with hi | hi
          · rw [hds]
            exact hdisj1' i hi
          · obtain ⟨g', -, hg'⟩ := List.mem_map.mp hi
            exact absurd hg' (by simp)
        have hP2 : ∀ ref ∈ acc1 ++ sgates.map Sum.inr,
            (resolveRef cq2 ref).is_swap = false →
            globalTargets dq2.global_qubits_set (resolveRef cq2 ref) = [] := by
          intro ref hr hswf
          rw [hgset2]
          rcases List.mem_append.mp hr with hr | hr
          · have heq : resolveRef cq2 ref = resolveRef cq1 ref :=
              resolveRef_congr _ _ ref
                (fun i hi => huntouch2 i (hdisj2 i (hi ▸ List.mem_append_left _ hr)))
            rw [heq] at hswf ⊢
            exact hP1 ref hr hswf
          · obtain ⟨g', hg'm, hg'⟩ := List.mem_map.mp hr
            rw [← hg'] at hswf
            have := hsg g' hg'm
            rw [show resolveRef cq2 (Sum.inr g') = g' from rfl, this] at hswf
            cases hswf
        obtain ⟨hgfin, hPfin⟩ := ih dq2 cq2 _ defr counter2 dq' cq' acc' hnd2 hdisj2 hP2 h
        refine ⟨hgfin.trans hgset2, ?_⟩
        intro ref hr hswf
        have := hPfin ref hr hswf
        rw [hgset2] at this
        exact this

theorem create_step_ne_onlySwap (dq : DQState) (ids : List Nat) (st : CreateState)
    (g : Gate)
    (hg : g.is_swap = false → globalTargets dq.global_qubits_set g = []) :
    create_step dq ids st g ≠ Except.error SchedErr.onlySwapGlobal := by
  intro h
  unfold create_step at h
  split at h
  · exact Except.noConfusion h
  · split at h
    · exact Except.noConfusion h
    · split at h
      · -- the only-SWAP error branch
        rename_i hne hgqs hnsw
        have hswf : g.is_swap = false := by
          rcases Bool.eq_false_or_eq_true g.is_swap with hb | hb
          · exact absurd hb hnsw
          · exact hb
        have := hg hswf
        rw [this] at hgqs
        exact hgqs (by simp)
      · split at h
        · exact (by injection h with h'; exact SchedErr.noConfusion h')
        · split at h
          · exact (by injection h with h'; exact SchedErr.noConfusion h')
          · split at h
            · split at h
              · exact (by injection h with h'; exact SchedErr.noConfusion h')
              · exact Except.noConfusion h
            · exact Except.noConfusion h

theorem dqCreate_no_onlySwap (dq : DQState) (ids : List Nat) :
    ∀ (queue : List Gate) (st : CreateState),
      (∀ g ∈ queue, g.is_swap = false → globalTargets dq.global_qubits_set g = []) →
      List.foldlM (create_step dq ids) st queue ≠ Except.error SchedErr.onlySwapGlobal := by
  intro queue
  induction queue with
  | nil =>
    intro st _ hc
    rw [List.foldlM_nil] at hc
    exact Except.noConfusion hc
  | cons g rest ih =>
    intro st hP hc
    rw [List.foldlM_cons] at hc
    cases h1 : create_step dq ids st g with
    | error e =>
      rw [h1] at hc
      simp only [Bind.bind, Except.bind] at hc
      injection hc with hce
      rw [hce] at h1
      exact create_step_ne_onlySwap dq ids st g
        (hP g (List.mem_cons_self g rest)) h1
    | ok st1 =>
      rw [h1] at hc
      simp only [Bind.bind, Except.bind] at hc
      exact ih st1 (fun g' hg' => hP g' (List.mem_cons_of_mem g hg')) hc

/-- C2: every non-SWAP gate in the queue returned by `transform` has a
target set disjoint from the partition's (fixed) global qubit set, and
therefore `create` never raises its "only SWAP gates are supported for
global qubits" error on a transformed queue. -/
theorem transform_output_no_global (comm : Gate → Gate → Bool) (dq : DQState)
    (cq : List Gate) (counter : List Int) (dq' : DQState) (cq' : List Gate)
    (out : List Gate)
    (h : queue_transform comm dq cq counter = Except.ok (dq', cq', out)) :
    (∀ g ∈ out, g.is_swap = false → globalTargets dq.global_qubits_set g = []) ∧
      ∀ ids, dqCreate dq ids out ≠ Except.error SchedErr.onlySwapGlobal := by
  unfold queue_transform at h
  cases haux : transformAux comm (cq.length + 1) dq cq [] (List.range cq.length) counter with
  | none =>
    rw [haux] at h
    exact Except.noConfusion h
  | some r =>
    cases r with
    | error e =>
      rw [haux] at h
      exact Except.noConfusion h
    | ok trip =>
      rcases trip with ⟨dq2, cq2, acc⟩
      rw [haux] at h
      injection h with h3
      simp only [Prod.mk.injEq] at h3
      obtain ⟨hdq, hcq, hout3⟩ := h3
      obtain ⟨hgset, hP⟩ := transformAux_no_global comm (cq.length + 1) dq cq []
        (List.range cq.length) counter dq2 cq2 acc (List.nodup_range _)
        (by intro i hi; cases hi) (by intro ref hr; cases hr) haux
      have hout : ∀ g ∈ out, g.is_swap = false →
          globalTargets dq.global_qubits_set g = [] := by
        rw [← hout3]
        intro g hg hsw
        rcases List.mem_append.mp hg with hg | hg
        · obtain ⟨ref, hrm, hre⟩ := List.mem_map.mp hg
          rw [← hre] at hsw ⊢
          exact hP ref hrm hsw
        · obtain ⟨p, -, hp⟩ := List.mem_map.mp hg
          rw [← hp] at hsw
          cases hsw
      exact ⟨hout, fun ids => dqCreate_no_onlySwap dq ids _ _ hout⟩

theorem transformAux_frame (comm : Gate → Gate → Bool) :
    ∀ (fuel : Nat) (dq : DQState) (cq : List Gate) (acc : List (Sum Nat Gate))
      (rem : List Nat) (counter : List Int) (dq' : DQState) (cq' : List Gate)
      (acc' : List (Sum Nat Gate)),
      rem.Nodup →
      transformAux comm fuel dq cq acc rem counter = some (Except.ok (dq', cq', acc')) →
      clear_swaps dq' = clear_swaps dq ∧
        (∃ add, dq'.swaps_list = dq.swaps_list ++ add) ∧
        cq'.length = cq.length ∧
        (∀ j, sameIdentity (cq'.getD j default) (cq.getD j default)) := by
  intro fuel
  induction fuel with
  | zero =>
    intro dq cq acc rem counter dq' cq' acc' _ h
    exact Option.noConfusion h
  | succ fuel ih =>
    intro dq cq acc rem counter dq' cq' acc' hnd h
    simp only [transformAux] at h
    rcases hps : transformPass comm dq rem cq acc [] counter with
      ⟨cq1, acc1, defr, counter1⟩
    rw [hps] at h
    obtain ⟨hlen1, -, ⟨ds, ns, hds, hsub, -, -, -⟩, hid1⟩ :=
      transformPass_spec comm dq rem cq acc [] counter cq1 acc1 defr counter1 hnd hps
    simp only [List.nil_append] at hds
    split at h
    · cases h
      exact ⟨rfl, ⟨[], by simp⟩, hlen1, hid1⟩
    · cases hrc : reconfigure dq cq1 defr counter1 with
      | error e =>
        rw [hrc] at h
        simp at h
      | ok r =>
        rcases r with ⟨dq2, cq2, sgates, counter2⟩
        rw [hrc] at h
        obtain ⟨hcs, ⟨add2, hadd2⟩, hlen2, -, -, hid2⟩ :=
          reconfigure_spec dq cq1 defr counter1 dq2 cq2 sgates counter2 hrc
        have hnd2 : defr.Nodup := hds ▸ hsub.nodup hnd
        obtain ⟨hcs', ⟨add3, hadd3⟩, hlen3, hid3⟩ :=
          ih dq2 cq2 _ defr counter2 dq' cq' acc' hnd2 h
        refine ⟨hcs'.trans hcs, ⟨add2 ++ add3, ?_⟩,
          hlen3.trans (hlen2.trans hlen1), ?_⟩
        · rw [hadd3, hadd2, List.append_assoc]
        · intro j
          exact sameIdentity_trans (hid3 j) (sameIdentity_trans (hid2 j) (hid1 j))

/-- C10: `transform` operates on the caller's gate objects in place:
it returns the circuit's own gate store with the same length and the
same gate identities (`tag` and kind flags), only the targets, controls
and `swap_reset` attributes of the stored gates having been rewritten
by `set_targets_and_controls`; apart from appending the inserted pairs
to `swaps_list`, the `DeviceQueues` partition bookkeeping (global and
local lists, reduced maps) is unchanged. -/
theorem transform_in_place (comm : Gate → Gate → Bool) (dq : DQState)
    (cq : List Gate) (counter : List Int) (dq' : DQState) (cq' : List Gate)
    (out : List Gate)
    (h : queue_transform comm dq cq counter = Except.ok (dq', cq', out)) :
    clear_swaps dq' = clear_swaps dq ∧
      (∃ add, dq'.swaps_list = dq.swaps_list ++ add) ∧
      cq'.length = cq.length ∧
      (∀ j, sameIdentity (cq'.getD j default) (cq.getD j default)) := by
  unfold queue_transform at h
  cases haux : transformAux comm (cq.length + 1) dq cq [] (List.range cq.length) counter with
  | none =>
    rw [haux] at h
    exact Except.noConfusion h
  | some r =>
    cases r with
    | error e =>
      rw [haux] at h
      exact Except.noConfusion h
    | ok trip =>
      rcases trip with ⟨dq2, cq2, acc⟩
      rw [haux] at h
      injection h with h3
      simp only [Prod.mk.injEq] at h3
      obtain ⟨hdq, hcq, -⟩ := h3
      rw [← hdq, ← hcq]
      exact transformAux_frame comm (cq.length + 1) dq cq [] (List.range cq.length)
        counter dq2 cq2 acc (List.nodup_range _) haux

/-- The trivially-true commutation oracle used in concrete runs. -/
def commT : Gate → Gate → Bool := fun _ _ => true

/-- The `DeviceQueues` partition of a 4-qubit circuit on 4 devices with
global set `{0, 1}`. -/
def dq4 : DQState := dqInit 4 4 2 2 [0, 1]

/-- C1 counterexample: with `D = 4`, global set `{0, 1}`, a user-issued
`SWAP(0, 1)` has two global targets, yet `transform` does **not** fail:
it rewrites the queue to `SWAP(1, 2); SWAP(0, 2); SWAP(1, 2)` (and the
deferred head gate object itself is rewritten to `SWAP(0, 2)`). -/
theorem two_global_swap_counterexample :
    globalTargets dq4.global_qubits_set (mkSwap 0 1) = [0, 1] ∧
      (mkSwap 0 1).is_swap = true ∧
      queue_transform commT dq4 [mkSwap 0 1] (gate_count [mkSwap 0 1] 4)
        = Except.ok ({ dq4 with swaps_list := [(1, 2)] }, [mkSwap 0 2],
            [mkSwap 1 2, mkSwap 0 2, mkSwap 1 2]) := by
  decide

theorem pyset_pair (a b : Nat) (hab : a < b) : pyset [a, b] = [a, b] := by
  unfold pyset
  have hd2 : ([a, b] : List Nat).dedup = [a, b] := by
    have hne : a ∉ ([b] : List Nat) := by
      simp [Nat.ne_of_lt hab]
    rw [List.dedup_cons_of_not_mem hne]
    simp
  rw [hd2]
  exact List.Sorted.insertionSort_eq
    (by simp [List.sorted_cons, Nat.le_of_lt hab])

/-- C1 (corrected claim): when the head deferred gate is a SWAP whose
two targets are both global, the reconfiguration does not fail with the
invalid-global-swap error; it exempts the popped (least) target,
inserts exactly one `SWAP` pairing the other global target with a local
partner, and rewrites the head in place into a SWAP with exactly one
global target, which the next pass accepts. -/
theorem two_global_swap_rewritten (dq : DQState) (cq : List Gate) (hd : Nat)
    (tl : List Nat) (counter : List Int) (dq2 : DQState) (cq2 : List Gate)
    (sg : List Gate) (c2 : List Int) (a b : Nat)
    (hnd : hd ∉ tl) (hlt : hd < cq.length)
    (hsw : (cq.getD hd default).is_swap = true)
    (hts : (cq.getD hd default).targets = [a, b])
    (hab : a < b) (haG : a ∈ dq.global_qubits_set) (hbG : b ∈ dq.global_qubits_set)
    (h : reconfigure dq cq (hd :: tl) counter = Except.ok (dq2, cq2, sg, c2)) :
    sg.length = 1 ∧ (cq2.getD hd default).is_swap = true ∧
      accept0 dq.global_qubits_set (cq2.getD hd default) = true := by
  obtain ⟨hA, hB, hdq2, hcq2, hsg⟩ := reconfigure_ok_inv dq cq hd tl counter dq2 cq2 sg c2 h
  have hacc := reconfigure_head dq cq hd tl counter dq2 cq2 sg c2 hnd hlt h
  have hid : (cq2.getD hd default).is_swap = (cq.getD hd default).is_swap :=
    ((reconfigure_spec dq cq (hd :: tl) counter dq2 cq2 sg c2 h).2.2.2.2.2 hd).1
  have hts0 : reconfTset0 cq hd = [a, b] := by
    rw [reconfTset0_eq, hts]
    exact pyset_pair a b hab
  have hgt0 : reconfGt0 dq cq hd = [a, b] := by
    rw [reconfGt0_eq, hts0]
    unfold pyinter
    simp [haG, hbG]
  have hgt : reconfGt dq cq hd = [b] := by
    unfold reconfGt
    rw [if_pos hsw, hgt0, hts0]
    have hh : ([a, b] : List Nat).headD 0 = a := rfl
    rw [hh, List.erase_cons_head]
  have havail : 1 ≤ (reconfAvail dq cq hd counter).length := by
    rw [hgt] at hB
    simpa using hB
  have hsglen : sg.length = 1 := by
    rw [hsg, List.length_map]
    show (reconfPairs dq cq hd counter).length = 1
    unfold reconfPairs
    rw [hgt]
    simp [List.length_zip, List.length_take, min_eq_left havail]
  exact ⟨hsglen, by rw [hid]; exact hsw, hacc⟩

/-- Witness for `two_global_swap_rewritten`: the `SWAP(0, 1)` scenario
with `D = 4`, global `{0, 1}`. -/
theorem two_global_swap_rewritten_witness :
    (([mkSwap 1 2] : List Gate).length = 1) ∧
      ((([mkSwap 0 2] : List Gate).getD 0 default).is_swap = true) ∧
      accept0 dq4.global_qubits_set (([mkSwap 0 2] : List Gate).getD 0 default) = true :=
  two_global_swap_rewritten dq4 [mkSwap 0 1] 0 [] [1, 1, 0, 0]
    { dq4 with swaps_list := [(1, 2)] } [mkSwap 0 2] [mkSwap 1 2] [1, 0, 1, 0] 0 1
    (by decide) (by decide) (by decide) (by decide) (by decide) (by decide) (by decide)
    (by decide)

/-- Witness for `transform_output_no_global`: a Hadamard on the local
qubit of `dq21` transforms to itself; the output has no global-target
non-SWAP gate and `create` accepts it. -/
theorem transform_output_no_global_witness :
    queue_transform commT dq21 [hGate 1] (gate_count [hGate 1] 2)
        = Except.ok (dq21, [hGate 1], [hGate 1]) ∧
      globalTargets dq21.global_qubits_set (hGate 1) = [] ∧
      dqCreate dq21 [0, 1] [hGate 1] ≠ Except.error SchedErr.onlySwapGlobal := by
  refine ⟨by decide, ?_, ?_⟩
  · exact (transform_output_no_global commT dq21 [hGate 1] (gate_count [hGate 1] 2)
      dq21 [hGate 1] [hGate 1] (by decide)).1 (hGate 1) (List.mem_singleton_self _)
      (by decide)
  · exact (transform_output_no_global commT dq21 [hGate 1] (gate_count [hGate 1] 2)
      dq21 [hGate 1] [hGate 1] (by decide)).2 [0, 1]

/-- Witness for `transform_in_place`: the `SWAP(0, 1)` scenario — the
partition bookkeeping is unchanged except for the appended swap pair,
and the caller's gate object now reads `SWAP(0, 2)` instead of the
original `SWAP(0, 1)`. -/
theorem transform_in_place_witness :
    queue_transform commT dq4 [mkSwap 0 1] (gate_count [mkSwap 0 1] 4)
        = Except.ok ({ dq4 with swaps_list := [(1, 2)] }, [mkSwap 0 2],
            [mkSwap 1 2, mkSwap 0 2, mkSwap 1 2]) ∧
      clear_swaps ({ dq4 with swaps_list := [(1, 2)] } : DQState) = clear_swaps dq4 ∧
      (∃ add, ({ dq4 with swaps_list := [(1, 2)] } : DQState).swaps_list
        = dq4.swaps_list ++ add) ∧
      ([mkSwap 0 2] : List Gate).length = ([mkSwap 0 1] : List Gate).length ∧
      sameIdentity (([mkSwap 0 2] : List Gate).getD 0 default)
        (([mkSwap 0 1] : List Gate).getD 0 default) ∧
      (([mkSwap 0 2] : List Gate).getD 0 default).targets
        ≠ (([mkSwap 0 1] : List Gate).getD 0 default).targets := by
  refine ⟨by decide, ?_⟩
  have hmain := transform_in_place commT dq4 [mkSwap 0 1] (gate_count [mkSwap 0 1] 4)
    { dq4 with swaps_list := [(1, 2)] } [mkSwap 0 2] [mkSwap 1 2, mkSwap 0 2, mkSwap 1 2]
    (by decide)
  exact ⟨hmain.1, hmain.2.1, hmain.2.2.1, hmain.2.2.2 0, by decide⟩
